import Mathlib

/-!
Verification development for the incremental maintenance module of the
cloudflare-workers repository (source file: the module defining
`runIncrementalMaintenance`, `cleanupIncremental`,
`backupSubscribersIncremental`, `backupContactsIncremental`, `saveToGitHub`).

The JavaScript module is shallowly embedded as executable Lean functions:

* The Cloudflare KV store is a finite association list from keys to stored
  values.  A stored value is modelled by its JSON parse class (`Val`): raw
  non-JSON text (CSV accumulator buffers) is `Val.buf`, a JSON object with
  numeric `timestamp`/`createdAt` fields is `Val.tsRec`, subscriber and
  contact records are `Val.subRec`/`Val.conRec`, the persisted checkpoint is
  `Val.stateRec` and the completion record `Val.completeRec`.
* KV `list({prefix, limit, cursor})` enumerates the keys carrying the prefix
  in a fixed total order (the character-code order `strLtB` below); a cursor
  is the last key returned by the previous page, and resumption returns the
  keys strictly greater than the cursor, which is how position-style cursors
  of the real store behave (in particular deletions at or before the cursor
  do not shift the enumeration).
* Wall-clock time-budget checks (`Date.now() - startTime > maxTime`) are
  modelled by a fuel counter: every check consumes one unit, and a check with
  no fuel left reports that the budget is exceeded.  Since real elapsed time
  is monotone, the observable outcome streams of the checks are exactly the
  streams "false up to some point, then true", so every real timing pattern
  corresponds to some fuel value.
* `Date.now()` as a timestamp is the ambient `Config.now`; ISO date strings
  produced by `new Date().toISOString()` are the ambient `Config.today`.
* The GitHub archive sink is a list of (path, content) pairs with
  idempotent overwrite-by-path, per the sink contract; a missing
  GITHUB_TOKEN makes `saveToGitHub` a no-op, as in the source.
* Every KV operation is appended to an operation log (`KVOp`) so that
  read/write counting properties can be stated.
-/

/-- JSON parse class of a stored KV value.  A constructor with record fields
stands for a raw JSON string having exactly those fields; `buf` is raw text
that does not parse as JSON (JSON.parse throws on it), which is what the CSV
accumulator buffers are.  Numeric timestamp fields (`tsRec`) are epoch
milliseconds; string timestamp fields (`subRec`/`conRec`) are date strings
fed to `new Date(...).getTime()`, modelled by `dateParse` below. -/
inductive Val where
  | buf (s : String)
  | tsRec (timestamp createdAt : Option Int)
  | subRec (ipAddress timestamp : Option String)
  | conRec (email name phone message subscribed : String) (ipAddress timestamp : Option String)
  | stateRec (phase : String) (cursor : Option String) (processed : Nat) (startedAt : String)
  | completeRec (completedAt : String) (totalProcessed : Nat)
deriving DecidableEq, Repr

/-- KV operations, logged so that access-count properties can be stated. -/
inductive KVOp where
  | get (k : String)
  | put (k : String) (v : Val)
  | del (k : String)
  | list (pfx : String) (limit : Nat) (cursor : Option String)
deriving DecidableEq, Repr

/-- The worker environment: the KV store contents, the archive sink contents
(path to content, overwrite-by-path), and the log of KV operations
performed (most recent first). -/
structure Env where
  kv : List (String × Val)
  sink : List (String × String)
  log : List KVOp
deriving DecidableEq, Repr

/-- The configuration object: the key prefixes, the GitHub credentials
(`none` models an unset GITHUB_TOKEN), and the ambient clock values. -/
structure Config where
  KEEP_PREFIX_MAINTENANCE : String
  PREFIX_RATELIMIT : String
  PREFIX_BOT_DETECT : String
  PREFIX_CAPTCHA : String
  PREFIX_SUBSCRIBER : String
  PREFIX_CONTACT : String
  GITHUB_TOKEN : Option String
  now : Int
  today : String
deriving DecidableEq, Repr

/-- The in-memory maintenance state parsed from the checkpoint record
(`{phase, cursor, processed, startedAt}`). -/
structure MState where
  phase : String
  cursor : Option String
  processed : Nat
  startedAt : String
deriving DecidableEq, Repr

/-- Result of one phase-handler chunk (`{complete, cursor, count}`); in
return paths where the source omits `cursor`, it is `none` here. -/
structure StepRes where
  complete : Bool
  cursor : Option String
  count : Nat
deriving DecidableEq, Repr

/-- Result of one scheduler invocation; `{complete:true}` carries no phase
or processed count in the source, hence the `Option` fields. -/
structure RunRes where
  complete : Bool
  phase : Option String
  processed : Option Nat
deriving DecidableEq, Repr

/-- Result of a KV `list` call (`{keys, cursor, list_complete}`). -/
structure ListRes where
  keys : List String
  cursor : Option String
  list_complete : Bool
deriving DecidableEq, Repr

/-! ### String helpers (kernel-reducible, built on the character list) -/

/-- Strict character-code order on character lists (shortlex head-first),
used as the fixed enumeration order of the keyed store. -/
def listLtB : List Char → List Char → Bool
  | [], [] => false
  | [], _ :: _ => true
  | _ :: _, [] => false
  | a :: as, b :: bs =>
    if a.toNat < b.toNat then true
    else if b.toNat < a.toNat then false
    else listLtB as bs

/-- Strict order on strings: character-code order of their data. -/
def strLtB (s t : String) : Bool := listLtB s.data t.data

/-- Reflexive order on strings, complement of the strict order. -/
def strLeB (s t : String) : Bool := !(strLtB t s)

/-- Boolean string-prefix test on the character lists. -/
def strPre (p s : String) : Bool := p.data.isPrefixOf s.data

/-- Replace the first occurrence of `pat` (deleting it) in a character
list - the semantics of JavaScript `String.replace(pat, '')`. -/
def replaceFirstL (pat : List Char) : List Char → List Char
  | [] => []
  | c :: cs =>
    if pat.isPrefixOf (c :: cs) then (c :: cs).drop pat.length
    else c :: replaceFirstL pat cs

/-- JavaScript `s.replace(pat, '')`: delete the first occurrence of `pat`. -/
def replaceFirst (s pat : String) : String := ⟨replaceFirstL pat.data s.data⟩

/-- JavaScript `x || ''` on an optional string field. -/
def orEmpty : Option String → String
  | some s => s
  | none => ""

/-- JavaScript template rendering of `n || ''` for an optional numeric
field (`0` is falsy and renders as the empty string). -/
def numStr : Option Int → String
  | some t => if t = 0 then "" else toString t
  | none => ""

/-- Last element of a list, if any. -/
def lastOpt : List String → Option String
  | [] => none
  | [a] => some a
  | _ :: b :: t => lastOpt (b :: t)

/-- Insert into a `strLeB`-sorted list. -/
def insertLe (k : String) : List String → List String
  | [] => [k]
  | x :: xs => if strLeB k x then k :: x :: xs else x :: insertLe k xs

/-- Insertion sort by `strLeB`: the fixed enumeration order of the store. -/
def sortStr : List String → List String
  | [] => []
  | x :: xs => insertLe x (sortStr xs)

/-! ### The keyed store -/

/-- Remove every binding of key `k`. -/
def kvErase : List (String × Val) → String → List (String × Val)
  | [], _ => []
  | q :: t, k => if q.1 = k then kvErase t k else q :: kvErase t k

/-- KV `get(key)`: first binding of the key, logged. -/
def kvGet (env : Env) (k : String) : Option Val × Env :=
  (List.lookup k env.kv, { env with log := KVOp.get k :: env.log })

/-- KV `put(key, value)`: bind the key to the value, logged. -/
def kvPut (env : Env) (k : String) (v : Val) : Env :=
  { env with kv := (k, v) :: kvErase env.kv k, log := KVOp.put k v :: env.log }

/-- KV `delete(key)`, logged. -/
def kvDelete (env : Env) (k : String) : Env :=
  { env with kv := kvErase env.kv k, log := KVOp.del k :: env.log }

/-- The keys of the store carrying the prefix, in enumeration order. -/
def keysWithPfx (kv : List (String × Val)) (pfx : String) : List String :=
  sortStr ((kv.map Prod.fst).filter (fun k => strPre pfx k))

/-- The keys remaining after a position cursor: all of them for a null
cursor, and the keys strictly greater than the cursor key otherwise. -/
def afterCursor (ks : List String) : Option String → List String
  | none => ks
  | some c => ks.filter (fun k => strLtB c k)

/-- KV `list({prefix, limit, cursor})`: one page of keys carrying the
prefix, the cursor for the next page (the last key of the page), and
`list_complete` when no further page exists.  Logged. -/
def kvList (env : Env) (pfx : String) (limit : Nat) (cur : Option String) :
    ListRes × Env :=
  let ks := afterCursor (keysWithPfx env.kv pfx) cur
  let page := ks.take limit
  ({ keys := page,
     cursor := match lastOpt page with
       | some l => some l
       | none => cur,
     list_complete := decide (ks.length ≤ limit) },
   { env with log := KVOp.list pfx limit cur :: env.log })

/-! ### Constant strings of the module -/

/-- Phase name `'cleanup'`. -/
def phCleanup : String := "cleanup"

/-- Phase name `'backup-subscribers'`. -/
def phSubs : String := "backup-subscribers"

/-- Phase name `'backup-contacts'`. -/
def phContacts : String := "backup-contacts"

/-- Checkpoint key suffix `'incremental-state'`. -/
def sIncState : String := "incremental-state"

/-- Completion record key suffix `'last-complete'`. -/
def sLastComplete : String := "last-complete"

/-- Subscriber accumulator key suffix `'backup-csv-subscribers'`. -/
def sSubCsv : String := "backup-csv-subscribers"

/-- Contact accumulator key suffix `'backup-csv-contacts'`. -/
def sConCsv : String := "backup-csv-contacts"

/-- Subscriber archive filename. -/
def sSubFile : String := "subscribers-backup.csv"

/-- Contact archive filename. -/
def sConFile : String := "contacts-backup.csv"

/-- CSV header of the subscriber backup (`'email,ip_address,timestamp\n'`). -/
def subHeader : String := "email,ip_address,timestamp\n"

/-- CSV header of the contact backup. -/
def conHeader : String := "email,name,phone,message,subscribed,ip_address,timestamp\n"

/-- The checkpoint key `KEEP_PREFIX_MAINTENANCE + 'incremental-state'`. -/
def stateKeyOf (cfg : Config) : String := cfg.KEEP_PREFIX_MAINTENANCE ++ sIncState

/-- The completion record key `KEEP_PREFIX_MAINTENANCE + 'last-complete'`. -/
def lastCompleteKeyOf (cfg : Config) : String := cfg.KEEP_PREFIX_MAINTENANCE ++ sLastComplete

/-- The subscriber accumulator key. -/
def subCsvKeyOf (cfg : Config) : String := cfg.KEEP_PREFIX_MAINTENANCE ++ sSubCsv

/-- The contact accumulator key. -/
def conCsvKeyOf (cfg : Config) : String := cfg.KEEP_PREFIX_MAINTENANCE ++ sConCsv

/-- Maintenance cleanup partitions: the fixed ordered (prefix, maxAge)
list of `cleanupIncremental` - 24 hours, 7 days, 1 hour, in milliseconds. -/
def cleanPartitions (cfg : Config) : List (String × Int) :=
  [(cfg.PREFIX_RATELIMIT, 86400000),
   (cfg.PREFIX_BOT_DETECT, 604800000),
   (cfg.PREFIX_CAPTCHA, 3600000)]

/-! ### The raw text of a stored value

`Val.asString` is the raw string a stored value stands for.  For `buf` it is
the text itself; for the JSON classes it is a canonical serialization (its
exact spelling only matters in store states no theorem below relies on). -/

/-- Canonical serialization of an optional string field. -/
def optStr : Option String → String
  | some s => "\"" ++ s ++ "\""
  | none => "null"

/-- Canonical serialization of an optional numeric field. -/
def optInt : Option Int → String
  | some t => toString t
  | none => "null"

/-- The raw string a stored value stands for (see the section comment). -/
def Val.asString : Val → String
  | .buf s => s
  | .tsRec ts cA => "\x7b\"timestamp\":" ++ optInt ts ++ ",\"createdAt\":" ++ optInt cA ++ "\x7d"
  | .subRec ip ts => "\x7b\"ipAddress\":" ++ optStr ip ++ ",\"timestamp\":" ++ optStr ts ++ "\x7d"
  | .conRec e n p m s ip ts =>
    "\x7b\"email\":\"" ++ e ++ "\",\"name\":\"" ++ n ++ "\",\"phone\":\"" ++ p ++
      "\",\"message\":\"" ++ m ++ "\",\"subscribed\":" ++ s ++ ",\"ipAddress\":" ++
      optStr ip ++ ",\"timestamp\":" ++ optStr ts ++ "\x7d"
  | .stateRec p c n sa =>
    "\x7b\"phase\":\"" ++ p ++ "\",\"cursor\":" ++ optStr c ++ ",\"processed\":" ++
      toString n ++ ",\"startedAt\":\"" ++ sa ++ "\"\x7d"
  | .completeRec ca tp =>
    "\x7b\"completedAt\":\"" ++ ca ++ "\",\"totalProcessed\":" ++ toString tp ++ "\x7d"

/-! ### Cleanup phase handler -/

/-- JavaScript falsy-fallback on a numeric `createdAt` field: a present
but zero value is falsy and yields no timestamp. -/
def zeroFallback : Option Int → Option Int
  | some c => if c = 0 then none else some c
  | none => none

/-! #### `new Date(string).getTime()`

A string timestamp field is fed to `new Date(timestamp).getTime()`.
`dateParse` below models that call on the one string format this system
itself writes, `new Date().toISOString()` - the strict 24-character
`YYYY-MM-DDTHH:mm:ss.sssZ` form - returning the UTC epoch milliseconds
exactly as the JavaScript engine does, and `none` (NaN, so the age guard is
false and the key is skipped) on everything else.  The engine also parses
further date formats this model rejects; theorems whose truth depends on
the parse result therefore carry a `dateWellFormed` hypothesis restricting
the store to empty-or-ISO string fields, on which the model is exact. -/

/-- Decimal digit test on a character. -/
def isDigit (c : Char) : Bool := 48 ≤ c.toNat && c.toNat ≤ 57

/-- Value of a decimal digit character. -/
def digitVal (c : Char) : Nat := c.toNat - 48

/-- Gregorian leap-year rule. -/
def isLeap (y : Nat) : Bool := y % 4 == 0 && (y % 100 != 0 || y % 400 == 0)

/-- Length of a month in the proleptic Gregorian calendar. -/
def monthLen (y m : Nat) : Nat :=
  if m = 2 then (if isLeap y then 29 else 28)
  else if m = 4 ∨ m = 6 ∨ m = 9 ∨ m = 11 then 30
  else 31

/-- Day count of a Gregorian date from 0000-03-01 (era-based civil-date
algorithm; `daysFromCivil 1970 1 1 = 719468`). -/
def daysFromCivil (y m d : Nat) : Nat :=
  let y2 := if m ≤ 2 then y - 1 else y
  let era := y2 / 400
  let yoe := y2 % 400
  let mp := if 2 < m then m - 3 else m + 9
  let doy := (153 * mp + 2) / 5 + d - 1
  let doe := yoe * 365 + yoe / 4 - yoe / 100 + doy
  era * 146097 + doe

/-- `new Date(s).getTime()` on the strict ISO form (see the section
comment): epoch milliseconds for a valid `YYYY-MM-DDTHH:mm:ss.sssZ` string,
`none` (NaN) otherwise. -/
def dateParse (s : String) : Option Int :=
  match s.data with
  | [y1, y2, y3, y4, a1, m1, m2, a2, d1, d2, a3, h1, h2, a4, n1, n2, a5, s1, s2, a6, f1, f2, f3, a7] =>
    if isDigit y1 = true ∧ isDigit y2 = true ∧ isDigit y3 = true ∧ isDigit y4 = true ∧
        isDigit m1 = true ∧ isDigit m2 = true ∧ isDigit d1 = true ∧ isDigit d2 = true ∧
        isDigit h1 = true ∧ isDigit h2 = true ∧ isDigit n1 = true ∧ isDigit n2 = true ∧
        isDigit s1 = true ∧ isDigit s2 = true ∧ isDigit f1 = true ∧ isDigit f2 = true ∧
        isDigit f3 = true ∧ a1 = '-' ∧ a2 = '-' ∧ a3 = 'T' ∧ a4 = ':' ∧ a5 = ':' ∧
        a6 = '.' ∧ a7 = 'Z' then
      let y := 1000 * digitVal y1 + 100 * digitVal y2 + 10 * digitVal y3 + digitVal y4
      let mo := 10 * digitVal m1 + digitVal m2
      let dy := 10 * digitVal d1 + digitVal d2
      let hh := 10 * digitVal h1 + digitVal h2
      let mi := 10 * digitVal n1 + digitVal n2
      let ss := 10 * digitVal s1 + digitVal s2
      let ms := 100 * digitVal f1 + 10 * digitVal f2 + digitVal f3
      if 1 ≤ y ∧ 1 ≤ mo ∧ mo ≤ 12 ∧ 1 ≤ dy ∧ dy ≤ monthLen y mo ∧
          hh ≤ 23 ∧ mi ≤ 59 ∧ ss ≤ 59 then
        some (((daysFromCivil y mo dy : Int) - 719468) * 86400000 +
          (((hh * 60 + mi) * 60 + ss) * 1000 + ms : Nat))
      else none
    else none
  | _ => none

/-- A string `timestamp` field through the cleanup guard: the empty string
is falsy (the `timestamp && ...` guard skips the key), any other string is
date-parsed. -/
def strTimestamp : Option String → Option Int
  | some s => if s = "" then none else dateParse s
  | none => none

/-- A string field on which `dateParse` is exact: empty (falsy, never
parsed) or strict-ISO (parsed identically by the engine). -/
def isoOk (s : String) : Bool := if s = "" then true else (dateParse s).isSome

/-- An optional string field on which `dateParse` is exact. -/
def strFieldOk : Option String → Bool
  | none => true
  | some s => isoOk s

/-- Stored values on whose date-string fields (if any) the embedded
`dateParse` agrees with the engine: numeric-field and fieldless classes
unconditionally, string-timestamp classes when the field is empty or
strict-ISO - the only string format this system writes. -/
def dateWellFormed : Val → Bool
  | .subRec _ ts => strFieldOk ts
  | .conRec _ _ _ _ _ _ ts => strFieldOk ts
  | _ => true

/-- The effective timestamp `data.timestamp || data.createdAt` of a stored
value, `none` when the value does not parse as JSON, has no such field, the
chosen field is falsy (zero or the empty string), or its date string does
not parse (NaN) - in all of which cases the source skips the key.  For the
string-timestamp classes (`subRec`/`conRec`, which have no `createdAt`
field) the chosen string is fed to `new Date(...).getTime()`, modeled by
`dateParse`. -/
def effTimestamp : Val → Option Int
  | .tsRec ts cA =>
    match ts with
    | some t => if t = 0 then zeroFallback cA else some t
    | none => zeroFallback cA
  | .subRec _ ts => strTimestamp ts
  | .conRec _ _ _ _ _ _ ts => strTimestamp ts
  | _ => none

/-- Per-key body of the cleanup loop: fetch the value and delete the key
when `now - timestamp > maxAge`; malformed or missing values are skipped.
Returns the updated environment and the number of deletions (0 or 1). -/
def cleanupKey (env : Env) (cfg : Config) (maxAge : Int) (k : String) : Env × Nat :=
  match kvGet env k with
  | (none, env1) => (env1, 0)
  | (some v, env1) =>
    match effTimestamp v with
    | some t => if maxAge < cfg.now - t then (kvDelete env1 k, 1) else (env1, 0)
    | none => (env1, 0)

/-- The inner key loop of `cleanupIncremental`: one fuel unit per time
check; on exhaustion return `{complete:false, cursor: list.cursor}` with the
page cursor `lc`.  `Sum.inr` carries on with (env, fuel, processed). -/
def cleanupKeys (cfg : Config) (maxAge : Int) (lc : Option String) :
    List String → Env → Nat → Nat → Sum (StepRes × Env) (Env × Nat × Nat)
  | [], env, fuel, pr => Sum.inr (env, fuel, pr)
  | k :: ks, env, fuel, pr =>
    match fuel with
    | 0 => Sum.inl ({ complete := false, cursor := lc, count := pr }, env)
    | f + 1 =>
      match cleanupKey env cfg maxAge k with
      | (env1, d) => cleanupKeys cfg maxAge lc ks env1 f (pr + d)

/-- The partition loop of `cleanupIncremental`.  Each partition is listed
with the single inherited checkpoint cursor `cur` (the source never changes
`state.cursor` inside the loop), page size 5; an empty page skips to the
next partition; a non-final page returns `{complete:false}` with the page
cursor; after the last partition `{complete:true}`. -/
def cleanupParts (cfg : Config) (cur : Option String) :
    List (String × Int) → Env → Nat → Nat → StepRes × Env
  | [], env, _, pr => ({ complete := true, cursor := none, count := pr }, env)
  | (pfx, maxAge) :: rest, env, fuel, pr =>
    match fuel with
    | 0 => ({ complete := false, cursor := cur, count := pr }, env)
    | f + 1 =>
      match kvList env pfx 5 cur with
      | (lst, env1) =>
        if lst.keys.isEmpty then cleanupParts cfg cur rest env1 f pr
        else
          match cleanupKeys cfg maxAge lst.cursor lst.keys env1 f pr with
          | Sum.inl r => r
          | Sum.inr (env2, f2, pr2) =>
            if lst.list_complete then cleanupParts cfg cur rest env2 f2 pr2
            else ({ complete := false, cursor := lst.cursor, count := pr2 }, env2)

/-- `cleanupIncremental(env, config, state, maxTime)`. -/
def cleanupIncremental (env : Env) (cfg : Config) (st : MState) (fuel : Nat) :
    StepRes × Env :=
  cleanupParts cfg st.cursor (cleanPartitions cfg) env fuel 0

/-! ### GitHub sink -/

/-- Overwrite-by-path insertion into the archive sink. -/
def sinkUpsert (sink : List (String × String)) (path content : String) :
    List (String × String) :=
  (path, content) :: sink.filter (fun q => q.1 != path)

/-- Literal `'backups/'`. -/
def sBackups : String := "backups/"

/-- Literal `'-'`. -/
def sDash : String := "-"

/-- The dated archive path `backups/YYYY-MM-DD-filename`. -/
def datedPath (cfg : Config) (filename : String) : String :=
  sBackups ++ cfg.today ++ sDash ++ filename

/-- `saveToGitHub(config, filename, content)`: skipped (with a warning)
when no GITHUB_TOKEN is configured, otherwise an overwrite-by-path upsert
of the dated path.  Sink errors are swallowed in the source and are out of
scope here. -/
def saveToGitHub (cfg : Config) (filename content : String)
    (sink : List (String × String)) : List (String × String) :=
  match cfg.GITHUB_TOKEN with
  | none => sink
  | some _ => sinkUpsert sink (datedPath cfg filename) content

/-! ### Archive-builder phase handlers -/

/-- Quoted three-field CSV row (subscriber backup). -/
def mkRow3 (e ip ts : String) : String :=
  "\"" ++ e ++ "\",\"" ++ ip ++ "\",\"" ++ ts ++ "\"\n"

/-- Quoted seven-field CSV row (contact backup). -/
def mkRow7 (e n p m s ip ts : String) : String :=
  "\"" ++ e ++ "\",\"" ++ n ++ "\",\"" ++ p ++ "\",\"" ++ m ++ "\",\"" ++ s ++
    "\",\"" ++ ip ++ "\",\"" ++ ts ++ "\"\n"

/-- JavaScript rendering of an absent object field inside a template. -/
def sUndef : String := "undefined"

/-- The subscriber row for a fetched value, `none` when `JSON.parse`
throws (raw text) so the key is skipped; otherwise the row uses
`key.name.replace(PREFIX_SUBSCRIBER, '')` as the email and the falsy-default
`ipAddress`/`timestamp` fields of whatever JSON object was stored. -/
def subRowFn (cfg : Config) (k : String) : Val → Option String
  | .buf _ => none
  | .subRec ip ts => some (mkRow3 (replaceFirst k cfg.PREFIX_SUBSCRIBER) (orEmpty ip) (orEmpty ts))
  | .tsRec ts _ => some (mkRow3 (replaceFirst k cfg.PREFIX_SUBSCRIBER) "" (numStr ts))
  | .conRec _ _ _ _ _ ip ts => some (mkRow3 (replaceFirst k cfg.PREFIX_SUBSCRIBER) (orEmpty ip) (orEmpty ts))
  | .stateRec _ _ _ _ => some (mkRow3 (replaceFirst k cfg.PREFIX_SUBSCRIBER) "" "")
  | .completeRec _ _ => some (mkRow3 (replaceFirst k cfg.PREFIX_SUBSCRIBER) "" "")

/-- The contact row for a fetched value, `none` when `JSON.parse` throws;
absent template fields render as `'undefined'`, and the `|| ''` fields
default to the empty string, as in the source template. -/
def conRowFn (_cfg : Config) (_k : String) : Val → Option String
  | .buf _ => none
  | .conRec e n p m s ip ts => some (mkRow7 e n p m s (orEmpty ip) (orEmpty ts))
  | .subRec ip ts => some (mkRow7 sUndef sUndef sUndef sUndef sUndef (orEmpty ip) (orEmpty ts))
  | .tsRec ts _ => some (mkRow7 sUndef sUndef sUndef sUndef sUndef "" (numStr ts))
  | .stateRec _ _ _ _ => some (mkRow7 sUndef sUndef sUndef sUndef sUndef "" "")
  | .completeRec _ _ => some (mkRow7 sUndef sUndef sUndef sUndef sUndef "" "")

/-- The compile-time parameters distinguishing the two archive-builder
handlers (they are line-for-line identical otherwise). -/
structure ArchiveParams where
  csvSuffix : String
  header : String
  threshold : Nat
  pfxOf : Config → String
  filename : String
  rowOf : Config → String → Val → Option String

/-- Parameters of `backupSubscribersIncremental`. -/
def subParams : ArchiveParams :=
  { csvSuffix := sSubCsv, header := subHeader, threshold := 30,
    pfxOf := Config.PREFIX_SUBSCRIBER, filename := sSubFile, rowOf := subRowFn }

/-- Parameters of `backupContactsIncremental`. -/
def conParams : ArchiveParams :=
  { csvSuffix := sConCsv, header := conHeader, threshold := 50,
    pfxOf := Config.PREFIX_CONTACT, filename := sConFile, rowOf := conRowFn }

/-- The key loop of the archive builders.  One fuel unit per time check;
on exhaustion the partial buffer is persisted and `{complete:false}` is
returned with the page cursor `lc` (`list.cursor` in the source); otherwise
each fetched record appends one formatted row (unparsable or missing values
are skipped). -/
def archiveLoop (cfg : Config) (p : ArchiveParams) (csvKey : String) (lc : Option String) :
    List String → Env → String → Nat → Nat → Sum (StepRes × Env) (Env × String × Nat)
  | [], env, csv, _, pr => Sum.inr (env, csv, pr)
  | k :: ks, env, csv, fuel, pr =>
    match fuel with
    | 0 =>
      Sum.inl ({ complete := false, cursor := lc, count := pr }, kvPut env csvKey (.buf csv))
    | f + 1 =>
      match kvGet env k with
      | (none, env1) => archiveLoop cfg p csvKey lc ks env1 csv f pr
      | (some v, env1) =>
        match p.rowOf cfg k v with
        | none => archiveLoop cfg p csvKey lc ks env1 csv f pr
        | some row => archiveLoop cfg p csvKey lc ks env1 (csv ++ row) f (pr + 1)

/-- The accumulator text loaded by an archive builder:
`await env.KV.get(csvKey) || header` - the stored raw text unless the slot
is absent or holds the (falsy) empty string. -/
def loadedCsv (p : ArchiveParams) : Option Val → String
  | none => p.header
  | some v => if v.asString = "" then p.header else v.asString

/-- The accumulator-buffer key of an archive builder. -/
def csvKeyP (cfg : Config) (p : ArchiveParams) : String :=
  cfg.KEEP_PREFIX_MAINTENANCE ++ p.csvSuffix

/-- One archive-builder chunk (`backupSubscribersIncremental` /
`backupContactsIncremental`): load the accumulator (defaulting to the
header), list one page of 20 keys from the cursor; an empty page flushes a
beyond-threshold buffer to the sink under the dated path, deletes it and
reports `{complete:true, count:0}`; otherwise run the loop, persist the
buffer, and flush-and-finish when the page was final. -/
def archiveStep (cfg : Config) (p : ArchiveParams) (env : Env) (st : MState)
    (fuel : Nat) : StepRes × Env :=
  let csvKey := cfg.KEEP_PREFIX_MAINTENANCE ++ p.csvSuffix
  match kvGet env csvKey with
  | (v0, env1) =>
    let existingCsv := loadedCsv p v0
    match kvList env1 (p.pfxOf cfg) 20 st.cursor with
    | (lst, env2) =>
      if lst.keys.isEmpty then
        if existingCsv ≠ "" ∧ p.threshold < existingCsv.length then
          let env3 := { env2 with sink := saveToGitHub cfg p.filename existingCsv env2.sink }
          let env4 := kvDelete env3 csvKey
          ({ complete := true, cursor := none, count := 0 }, env4)
        else ({ complete := true, cursor := none, count := 0 }, env2)
      else
        match archiveLoop cfg p csvKey lst.cursor lst.keys env2 existingCsv fuel 0 with
        | Sum.inl r => r
        | Sum.inr (env3, csv, pr) =>
          let env4 := kvPut env3 csvKey (.buf csv)
          if lst.list_complete then
            let env5 := { env4 with sink := saveToGitHub cfg p.filename csv env4.sink }
            let env6 := kvDelete env5 csvKey
            ({ complete := true, cursor := none, count := pr }, env6)
          else ({ complete := false, cursor := lst.cursor, count := pr }, env4)

/-- `backupSubscribersIncremental(env, config, state, maxTime)`. -/
def backupSubscribersIncremental (env : Env) (cfg : Config) (st : MState)
    (fuel : Nat) : StepRes × Env :=
  archiveStep cfg subParams env st fuel

/-- `backupContactsIncremental(env, config, state, maxTime)`. -/
def backupContactsIncremental (env : Env) (cfg : Config) (st : MState)
    (fuel : Nat) : StepRes × Env :=
  archiveStep cfg conParams env st fuel

/-! ### The phase scheduler -/

/-- The fresh maintenance state used when no checkpoint is stored. -/
def freshState (cfg : Config) : MState :=
  { phase := phCleanup, cursor := none, processed := 0, startedAt := cfg.today }

/-- Parse the stored checkpoint: absent or empty-string values yield the
fresh state (they are falsy), a stored `stateRec` yields its fields, and a
value whose `JSON.parse` fails (or that is not a checkpoint object) aborts
the invocation - `none` models the exception propagating out of
`runIncrementalMaintenance`; such store states are unreachable for the
scheduler and outside every theorem below. -/
def loadState (cfg : Config) : Option Val → Option MState
  | none => some (freshState cfg)
  | some (.buf s) => if s = "" then some (freshState cfg) else none
  | some (.stateRec p c n sa) => some { phase := p, cursor := c, processed := n, startedAt := sa }
  | some _ => none

/-- The checkpoint value serialization of a maintenance state. -/
def stateVal (st : MState) : Val :=
  Val.stateRec st.phase st.cursor st.processed st.startedAt

/-- `runIncrementalMaintenance(env, config)`: read the checkpoint, dispatch
on the phase, advance or persist the state, handle cycle completion.  The
first component is `none` when the invocation throws (malformed checkpoint),
otherwise the returned `{complete, phase?, processed?}` object; the second
component is the environment after the invocation's KV effects. -/
def runIncrementalMaintenance (env : Env) (cfg : Config) (fuel : Nat) :
    Option RunRes × Env :=
  match kvGet env (stateKeyOf cfg) with
  | (v0, env1) =>
    match loadState cfg v0 with
    | none => (none, env1)
    | some st =>
      if st.phase = phCleanup then
        match cleanupIncremental env1 cfg st fuel with
        | (r, env2) =>
          let st' :=
            if r.complete then
              { phase := phSubs, cursor := none, processed := 0, startedAt := st.startedAt }
            else
              { st with cursor := r.cursor, processed := st.processed + r.count }
          let env3 := kvPut env2 (stateKeyOf cfg) (stateVal st')
          (some { complete := false, phase := some st'.phase, processed := some st'.processed }, env3)
      else if st.phase = phSubs then
        match backupSubscribersIncremental env1 cfg st fuel with
        | (r, env2) =>
          let st' :=
            if r.complete then
              { phase := phContacts, cursor := none, processed := 0, startedAt := st.startedAt }
            else
              { st with cursor := r.cursor, processed := st.processed + r.count }
          let env3 := kvPut env2 (stateKeyOf cfg) (stateVal st')
          (some { complete := false, phase := some st'.phase, processed := some st'.processed }, env3)
      else if st.phase = phContacts then
        match backupContactsIncremental env1 cfg st fuel with
        | (r, env2) =>
          if r.complete then
            let env3 := kvDelete env2 (stateKeyOf cfg)
            let env4 := kvPut env3 (lastCompleteKeyOf cfg)
              (Val.completeRec cfg.today st.processed)
            (some { complete := true, phase := none, processed := none }, env4)
          else
            let st' := { st with cursor := r.cursor, processed := st.processed + r.count }
            let env3 := kvPut env2 (stateKeyOf cfg) (stateVal st')
            (some { complete := false, phase := some st'.phase, processed := some st'.processed }, env3)
      else
        let env3 := kvPut env1 (stateKeyOf cfg) (stateVal st)
        (some { complete := false, phase := some st.phase, processed := some st.processed }, env3)

/-! ### Derived notions used in the statements below -/

/-- The scheduler's state update after a phase handler chunk: on completion
advance to phase `nxt` with a null cursor and zero count, otherwise record
the handler's cursor and add its count. -/
def phaseNextState (nxt : String) (st : MState) (r : StepRes) : MState :=
  if r.complete then { phase := nxt, cursor := none, processed := 0, startedAt := st.startedAt }
  else { st with cursor := r.cursor, processed := st.processed + r.count }

/-- The phase recorded in the checkpoint, `'cleanup'` when absent (the
scheduler's fresh default). -/
def phaseOf (cfg : Config) (env : Env) : String :=
  match List.lookup (stateKeyOf cfg) env.kv with
  | some (.stateRec p _ _ _) => p
  | _ => phCleanup

/-- The successor in the fixed phase order, the final phase cycling back
to `'cleanup'` (cycle reset). -/
def nextPhase (p : String) : String :=
  if p = phCleanup then phSubs
  else if p = phSubs then phContacts
  else if p = phContacts then phCleanup
  else p

/-- Environments reachable from `e` by any number of maintenance-step
invocations (with arbitrary per-invocation budgets); between two steps the
state lives only in the store, so a crash-and-restart between steps is the
identity on this relation. -/
inductive Reaches (cfg : Config) : Env → Env → Prop
  | refl (e : Env) : Reaches cfg e e
  | step (e1 e2 : Env) (fuel : Nat) (h : Reaches cfg e1 e2) :
      Reaches cfg e1 (runIncrementalMaintenance e2 cfg fuel).2

/-! ### Concrete stores and configurations used in witnesses and
counterexamples -/

/-- A small maintenance configuration (no GitHub token). -/
def cfgM : Config :=
  { KEEP_PREFIX_MAINTENANCE := "m:", PREFIX_RATELIMIT := "r:", PREFIX_BOT_DETECT := "b:",
    PREFIX_CAPTCHA := "c:", PREFIX_SUBSCRIBER := "s:", PREFIX_CONTACT := "t:",
    GITHUB_TOKEN := none, now := 86400002, today := "D" }

/-- A fresh maintenance state (cleanup phase, null cursor). -/
def stFresh : MState :=
  { phase := phCleanup, cursor := none, processed := 0, startedAt := "D" }
/-- Store holding a single expired rate-limit record, otherwise empty. -/
def envW3 : Env :=
  { kv := [(("r:1"), Val.tsRec (some 1) none)], sink := [], log := [] }

/-- Store with a subscriber-phase checkpoint and a non-empty subscriber
accumulator buffer, but no subscriber records (enumeration exhausted). -/
def envC2 : Env :=
  { kv := [(stateKeyOf cfgM, Val.stateRec phSubs none 0 ("D")),
           (subCsvKeyOf cfgM, Val.buf (subHeader ++ mkRow3 ("a") ("") ("")))],
    sink := [], log := [] }

/-- Store holding one rate-limit record whose timestamp field is zero
(epoch 1970), far older than the partition maxAge. -/
def envC9 : Env :=
  { kv := [(("r:1"), Val.tsRec (some 0) none)], sink := [], log := [] }

/-- Maintenance configuration whose clock is one day past the epoch
instant of the ISO string stored in `envW9`. -/
def cfgW9 : Config :=
  { KEEP_PREFIX_MAINTENANCE := "m:", PREFIX_RATELIMIT := "r:", PREFIX_BOT_DETECT := "b:",
    PREFIX_CAPTCHA := "c:", PREFIX_SUBSCRIBER := "s:", PREFIX_CONTACT := "t:",
    GITHUB_TOKEN := none, now := 1577923200001, today := "D" }

/-- Store holding one record whose timestamp field is an ISO date string
(the format `new Date().toISOString()` writes), one day older than
`cfgW9.now`. -/
def envW9 : Env :=
  { kv := [(("r:2"), Val.subRec none (some ("2020-01-01T00:00:00.000Z")))],
    sink := [], log := [] }

/-- Store with a contacts-phase checkpoint carrying processed = 7 and one
contact record still to archive. -/
def envW10 : Env :=
  { kv := [(stateKeyOf cfgM, Val.stateRec phContacts none 7 ("D")),
           (("t:x"), Val.conRec ("e") ("nm") ("p") ("msg") ("true") none none)],
    sink := [], log := [] }

/-- Store with a cleanup-phase checkpoint and no partition records. -/
def envW6a : Env :=
  { kv := [(stateKeyOf cfgM, Val.stateRec phCleanup none 3 ("D"))], sink := [], log := [] }

/-- Store with a subscriber-phase checkpoint and no subscriber records. -/
def envW6b : Env :=
  { kv := [(stateKeyOf cfgM, Val.stateRec phSubs none 4 ("D"))], sink := [], log := [] }

/-- Store with a contacts-phase checkpoint and no contact records. -/
def envW6c : Env :=
  { kv := [(stateKeyOf cfgM, Val.stateRec phContacts none 5 ("D"))], sink := [], log := [] }

/-- The empty store. -/
def envEmpty : Env := { kv := [], sink := [], log := [] }

/-- The checkpoint slot is absent or holds a checkpoint record with one of
the three phase names - the shape every reachable store has. -/
def ValidCkpt (cfg : Config) (env : Env) : Prop :=
  List.lookup (stateKeyOf cfg) env.kv = none ∨
  ∃ p c n sa, List.lookup (stateKeyOf cfg) env.kv = some (Val.stateRec p c n sa) ∧
    (p = phCleanup ∨ p = phSubs ∨ p = phContacts)

/-- A maintenance configuration with a GitHub token configured. -/
def cfgG : Config :=
  { KEEP_PREFIX_MAINTENANCE := "m:", PREFIX_RATELIMIT := "r:", PREFIX_BOT_DETECT := "b:",
    PREFIX_CAPTCHA := "c:", PREFIX_SUBSCRIBER := "s:", PREFIX_CONTACT := "t:",
    GITHUB_TOKEN := some "tk", now := 86400002, today := "D" }

/-- Store holding both accumulator buffers (each beyond its header) and no
subscriber or contact records. -/
def envW8 : Env :=
  { kv := [(subCsvKeyOf cfgG, Val.buf (subHeader ++ (mkRow3 ("a") ("") ("") ++ ""))),
           (conCsvKeyOf cfgG, Val.buf (conHeader ++ "x"))],
    sink := [], log := [] }

/-- Does the operation read the given key. -/
def KVOp.isReadOf : KVOp → String → Bool
  | .get k', k => k' == k
  | _, _ => false

/-- Does the operation write (put or delete) the given key. -/
def KVOp.isWriteOf : KVOp → String → Bool
  | .put k' _, k => k' == k
  | .del k', k => k' == k
  | _, _ => false

/-- A cleanup configuration whose clock makes a timestamp of 1 expired for
every partition. -/
def cfgA : Config :=
  { KEEP_PREFIX_MAINTENANCE := "m:", PREFIX_RATELIMIT := "r:", PREFIX_BOT_DETECT := "b:",
    PREFIX_CAPTCHA := "c:", PREFIX_SUBSCRIBER := "s:", PREFIX_CONTACT := "t:",
    GITHUB_TOKEN := none, now := 700000002, today := "D" }

/-- A fresh (non-expired) rate-limit record under `cfgA`. -/
def freshTs : Val := Val.tsRec (some 700000001) none

/-- An expired record under every partition maxAge of `cfgA`. -/
def oldTs : Val := Val.tsRec (some 1) none

/-- Six fresh rate-limit records (more than one page of five) and one
expired bot-detection record. -/
def envA : Env :=
  { kv := [(("r:1"), freshTs), (("r:2"), freshTs), (("r:3"), freshTs), (("r:4"), freshTs),
           (("r:5"), freshTs), (("r:6"), freshTs), (("b:1"), oldTs)],
    sink := [], log := [] }

/-- Cleanup state resuming from the cursor `r:5` returned by the first
chunk on `envA`. -/
def stA2 : MState :=
  { phase := phCleanup, cursor := some ("r:5"), processed := 0, startedAt := "D" }

/-- Two subscriber records and nothing else. -/
def envC1 : Env :=
  { kv := [(("s:a"), Val.subRec none none), (("s:b"), Val.subRec none none)],
    sink := [], log := [] }

/-- Invocation chain on `envC1`: fresh cleanup pass. -/
def c1s1 : Env := (runIncrementalMaintenance envC1 cfgG 100).2

/-- Second invocation: subscriber phase with budget for only one record. -/
def c1s2 : Env := (runIncrementalMaintenance c1s1 cfgG 1).2

/-- Third invocation: subscriber phase resumes from the returned cursor. -/
def c1s3 : Env := (runIncrementalMaintenance c1s2 cfgG 100).2

/-- Fourth invocation: contact phase, completing the cycle. -/
def c1s4 : Env := (runIncrementalMaintenance c1s3 cfgG 100).2

/-- The page an archive builder fetches: the first twenty keys of its
partition after the cursor. -/
def pageOf (cfg : Config) (p : ArchiveParams) (env : Env) (cur : Option String) :
    List String :=
  (afterCursor (keysWithPfx env.kv (p.pfxOf cfg)) cur).take 20

/-- The row an archive builder appends for a key of the store, if any. -/
def rowAt (cfg : Config) (p : ArchiveParams) (kv : List (String × Val)) (k : String) :
    Option String :=
  (List.lookup k kv).bind (p.rowOf cfg k)

/-- The concatenated rows an archive builder appends for a list of keys
(skipped keys contribute nothing). -/
def rowsOf (cfg : Config) (p : ArchiveParams) (kv : List (String × Val)) :
    List String → String
  | [] => ""
  | k :: ks => (rowAt cfg p kv k).getD "" ++ rowsOf cfg p kv ks

/-- The operations the cleanup handler may perform: page listings, and
gets or deletes of keys carrying one of the partition prefixes. -/
def cleanOpOK (pfxs : List String) : KVOp → Prop
  | KVOp.get k => ∃ pfx, pfx ∈ pfxs ∧ strPre pfx k = true
  | KVOp.del k => ∃ pfx, pfx ∈ pfxs ∧ strPre pfx k = true
  | KVOp.put _ _ => False
  | KVOp.list _ _ _ => True

/-- The operations an archive builder may perform: page listings, reads of
its buffer key or of partition keys, and writes of its buffer key only. -/
def archOpOK (cfg : Config) (p : ArchiveParams) : KVOp → Prop
  | KVOp.get k => k = csvKeyP cfg p ∨ strPre (p.pfxOf cfg) k = true
  | KVOp.put k _ => k = csvKeyP cfg p
  | KVOp.del k => k = csvKeyP cfg p
  | KVOp.list _ _ _ => True

/-- The operation does not read or write the given key. -/
def opFreeOf (sk : String) : KVOp → Prop
  | KVOp.get k => k ≠ sk
  | KVOp.put k _ => k ≠ sk
  | KVOp.del k => k ≠ sk
  | KVOp.list _ _ _ => True

/-- The environment carried by a cleanup key-loop outcome. -/
def sumEnvC : Sum (StepRes × Env) (Env × Nat × Nat) → Env
  | Sum.inl q => q.2
  | Sum.inr q => q.1

/-- The environment carried by an archive key-loop outcome. -/
def sumEnvA : Sum (StepRes × Env) (Env × String × Nat) → Env
  | Sum.inl q => q.2
  | Sum.inr q => q.1

/-! ### Basic store lemmas -/

theorem lookup_cons_self {β : Type} (k : String) (v : β) (t : List (String × β)) :
    List.lookup k ((k, v) :: t) = some v := by
  simp [List.lookup]

theorem lookup_cons_ne {β : Type} {k k' : String} (v : β) (t : List (String × β))
    (h : k ≠ k') : List.lookup k ((k', v) :: t) = List.lookup k t := by
  have hb : (k == k') = false := beq_eq_false_iff_ne.mpr h
  simp [List.lookup, hb]

theorem lookup_kvErase_self (kv : List (String × Val)) (k : String) :
    List.lookup k (kvErase kv k) = none := by
  induction kv with
  | nil => rfl
  | cons q t ih =>
    obtain ⟨a, b⟩ := q
    by_cases h : a = k
    · rw [kvErase, if_pos h]
      exact ih
    · rw [kvErase, if_neg h, lookup_cons_ne b _ (fun hk => h hk.symm)]
      exact ih

theorem lookup_kvErase_ne (kv : List (String × Val)) {k k' : String} (h : k ≠ k') :
    List.lookup k (kvErase kv k') = List.lookup k kv := by
  induction kv with
  | nil => rfl
  | cons q t ih =>
    obtain ⟨a, b⟩ := q
    by_cases hq : a = k'
    · rw [kvErase, if_pos hq, ih, lookup_cons_ne b _ (by rw [hq]; exact h)]
    · rw [kvErase, if_neg hq]
      by_cases hk : k = a
      · subst hk
        rw [lookup_cons_self, lookup_cons_self]
      · rw [lookup_cons_ne b _ hk, lookup_cons_ne b _ hk]
        exact ih

theorem lookup_kvPut_self (env : Env) (k : String) (v : Val) :
    List.lookup k (kvPut env k v).kv = some v := by
  simp [kvPut, lookup_cons_self]

theorem lookup_kvPut_ne (env : Env) {k k' : String} (v : Val) (h : k ≠ k') :
    List.lookup k (kvPut env k' v).kv = List.lookup k env.kv := by
  simp only [kvPut]
  rw [lookup_cons_ne _ _ h, lookup_kvErase_ne _ h]

theorem lookup_kvDelete_self (env : Env) (k : String) :
    List.lookup k (kvDelete env k).kv = none := by
  simp [kvDelete, lookup_kvErase_self]

theorem lookup_kvDelete_ne (env : Env) {k k' : String} (h : k ≠ k') :
    List.lookup k (kvDelete env k').kv = List.lookup k env.kv := by
  simp only [kvDelete]
  exact lookup_kvErase_ne _ h

theorem string_append_cancel {s a b : String} (h : s ++ a = s ++ b) : a = b := by
  have hd := congrArg String.data h
  rw [String.data_append, String.data_append] at hd
  have hab := List.append_cancel_left hd
  cases a; cases b; simp_all

/-- The checkpoint key and the completion record key are distinct. -/
theorem stateKey_ne_lastComplete (cfg : Config) :
    stateKeyOf cfg ≠ lastCompleteKeyOf cfg := by
  intro h
  have h2 : sIncState = sLastComplete := string_append_cancel h
  exact absurd (congrArg String.length h2) (by decide)

/-- The subscriber accumulator key and the checkpoint key are distinct. -/
theorem subCsvKey_ne_stateKey (cfg : Config) :
    subCsvKeyOf cfg ≠ stateKeyOf cfg := by
  intro h
  have h2 : sSubCsv = sIncState := string_append_cancel h
  exact absurd (congrArg String.length h2) (by decide)

/-- The contact accumulator key and the checkpoint key are distinct. -/
theorem conCsvKey_ne_stateKey (cfg : Config) :
    conCsvKeyOf cfg ≠ stateKeyOf cfg := by
  intro h
  have h2 : sConCsv = sIncState := string_append_cancel h
  exact absurd (congrArg String.length h2) (by decide)

/-! ### Scheduler branch equations -/

theorem run_eq_fresh (env : Env) (cfg : Config) (fuel : Nat)
    (hst : List.lookup (stateKeyOf cfg) env.kv = none) :
    runIncrementalMaintenance env cfg fuel =
      (let rr := cleanupIncremental { env with log := KVOp.get (stateKeyOf cfg) :: env.log }
          cfg (freshState cfg) fuel
       let st' := phaseNextState phSubs (freshState cfg) rr.1
       (some { complete := false, phase := some st'.phase, processed := some st'.processed },
        kvPut rr.2 (stateKeyOf cfg) (stateVal st'))) := by
  simp only [runIncrementalMaintenance, kvGet]
  rw [hst]
  simp only [loadState, freshState, phaseNextState]
  rw [if_pos trivial]

theorem run_eq_cleanup (env : Env) (cfg : Config) (fuel : Nat) (c : Option String)
    (n : Nat) (sa : String)
    (hst : List.lookup (stateKeyOf cfg) env.kv = some (Val.stateRec phCleanup c n sa)) :
    runIncrementalMaintenance env cfg fuel =
      (let rr := cleanupIncremental { env with log := KVOp.get (stateKeyOf cfg) :: env.log }
          cfg { phase := phCleanup, cursor := c, processed := n, startedAt := sa } fuel
       let st' := phaseNextState phSubs
          { phase := phCleanup, cursor := c, processed := n, startedAt := sa } rr.1
       (some { complete := false, phase := some st'.phase, processed := some st'.processed },
        kvPut rr.2 (stateKeyOf cfg) (stateVal st'))) := by
  simp only [runIncrementalMaintenance, kvGet]
  rw [hst]
  simp only [loadState, phaseNextState]
  rw [if_pos trivial]

theorem run_eq_subs (env : Env) (cfg : Config) (fuel : Nat) (c : Option String)
    (n : Nat) (sa : String)
    (hst : List.lookup (stateKeyOf cfg) env.kv = some (Val.stateRec phSubs c n sa)) :
    runIncrementalMaintenance env cfg fuel =
      (let rr := backupSubscribersIncremental
          { env with log := KVOp.get (stateKeyOf cfg) :: env.log } cfg
          { phase := phSubs, cursor := c, processed := n, startedAt := sa } fuel
       let st' := phaseNextState phContacts
          { phase := phSubs, cursor := c, processed := n, startedAt := sa } rr.1
       (some { complete := false, phase := some st'.phase, processed := some st'.processed },
        kvPut rr.2 (stateKeyOf cfg) (stateVal st'))) := by
  simp only [runIncrementalMaintenance, kvGet]
  rw [hst]
  simp only [loadState, phaseNextState]
  rw [if_neg (by decide), if_pos trivial]

theorem run_eq_contacts (env : Env) (cfg : Config) (fuel : Nat) (c : Option String)
    (n : Nat) (sa : String)
    (hst : List.lookup (stateKeyOf cfg) env.kv = some (Val.stateRec phContacts c n sa)) :
    runIncrementalMaintenance env cfg fuel =
      (let rr := backupContactsIncremental
          { env with log := KVOp.get (stateKeyOf cfg) :: env.log } cfg
          { phase := phContacts, cursor := c, processed := n, startedAt := sa } fuel
       if rr.1.complete then
         (some { complete := true, phase := none, processed := none },
          kvPut (kvDelete rr.2 (stateKeyOf cfg)) (lastCompleteKeyOf cfg)
            (Val.completeRec cfg.today n))
       else
         let st' := { phase := phContacts, cursor := rr.1.cursor,
                      processed := n + rr.1.count, startedAt := sa }
         (some { complete := false, phase := some st'.phase, processed := some st'.processed },
          kvPut rr.2 (stateKeyOf cfg) (stateVal st'))) := by
  simp only [runIncrementalMaintenance, kvGet]
  rw [hst]
  simp only [loadState]
  rw [if_neg (by decide), if_neg (by decide), if_pos trivial]

theorem run_eq_unknown (env : Env) (cfg : Config) (fuel : Nat) (p : String)
    (c : Option String) (n : Nat) (sa : String)
    (hst : List.lookup (stateKeyOf cfg) env.kv = some (Val.stateRec p c n sa))
    (h1 : p ≠ phCleanup) (h2 : p ≠ phSubs) (h3 : p ≠ phContacts) :
    runIncrementalMaintenance env cfg fuel =
      (some { complete := false, phase := some p, processed := some n },
       kvPut { env with log := KVOp.get (stateKeyOf cfg) :: env.log } (stateKeyOf cfg)
        (stateVal { phase := p, cursor := c, processed := n, startedAt := sa })) := by
  simp only [runIncrementalMaintenance, kvGet]
  rw [hst]
  simp only [loadState]
  rw [if_neg h1, if_neg h2, if_neg h3]

theorem run_eq_throw (env : Env) (cfg : Config) (fuel : Nat) (v : Val)
    (hst : List.lookup (stateKeyOf cfg) env.kv = some v)
    (hv : loadState cfg (some v) = none) :
    runIncrementalMaintenance env cfg fuel =
      (none, { env with log := KVOp.get (stateKeyOf cfg) :: env.log }) := by
  simp only [runIncrementalMaintenance, kvGet]
  rw [hst, hv]

/-! ### Claim C10 -/

/-- C10: when the final phase (backup-contacts) handler reports completion,
the CompletionRecord written by the scheduler records as totalProcessed
exactly the processed count loaded from the checkpoint at the start of the
invocation - the final phase's count as last persisted - regardless of the
completing invocation's own final chunk (whose count is not added) and of
the earlier phases' counts (reset to zero at each transition). -/
theorem claim_C10 (env : Env) (cfg : Config) (fuel : Nat) (cur : Option String)
    (n : Nat) (sa : String)
    (hst : List.lookup (stateKeyOf cfg) env.kv = some (Val.stateRec phContacts cur n sa))
    (hc : (backupContactsIncremental { env with log := KVOp.get (stateKeyOf cfg) :: env.log } cfg
        { phase := phContacts, cursor := cur, processed := n, startedAt := sa } fuel).1.complete = true) :
    List.lookup (lastCompleteKeyOf cfg) (runIncrementalMaintenance env cfg fuel).2.kv =
      some (Val.completeRec cfg.today n) ∧
    (runIncrementalMaintenance env cfg fuel).1 =
      some { complete := true, phase := none, processed := none } := by
  rw [run_eq_contacts env cfg fuel cur n sa hst]
  dsimp only
  rw [if_pos hc]
  exact ⟨lookup_kvPut_self _ _ _, rfl⟩

/-- Witness for C10: the completing invocation archives one last contact
(count 1), yet the completion record stores the checkpoint's 7. -/
theorem claim_C10_witness :
    List.lookup (lastCompleteKeyOf cfgM) (runIncrementalMaintenance envW10 cfgM 100).2.kv =
      some (Val.completeRec cfgM.today 7) ∧
    (runIncrementalMaintenance envW10 cfgM 100).1 =
      some { complete := true, phase := none, processed := none } :=
  claim_C10 envW10 cfgM 100 none 7 ("D") (by decide) (by decide)

/-! ### Claim C2 -/

/-- C2 (code divergence): with GITHUB_TOKEN unset, a subscriber-phase
invocation that reaches the flush point skips the archive flush (the sink
stays empty) but still deletes the accumulator buffer: after the
invocation the buffer is gone from the keyed store, so the accumulated
rows are lost rather than retained for a later successful flush - contrary
to the claim that the buffer remains persisted. -/
theorem claim_C2_code_divergence :
    cfgM.GITHUB_TOKEN = none ∧
    List.lookup (subCsvKeyOf cfgM) envC2.kv =
      some (Val.buf (subHeader ++ mkRow3 ("a") ("") (""))) ∧
    (runIncrementalMaintenance envC2 cfgM 100).2.sink = [] ∧
    List.lookup (subCsvKeyOf cfgM) (runIncrementalMaintenance envC2 cfgM 100).2.kv = none := by
  decide

/-! ### Claim C9 -/

/-- C9 (counterexample): a stored value that is present, parses as JSON and
has a `timestamp` field (value 0, the epoch) older than the partition's
maxAge is nevertheless NOT deleted, because `data.timestamp ||
data.createdAt` treats the zero timestamp as falsy and the guard skips the
key: the key is visited (the get is in the log) and survives with count 0,
contradicting the claimed "deleted if and only if" characterization. -/
theorem claim_C9_counterexample :
    List.lookup ("r:1") envC9.kv = some (Val.tsRec (some 0) none) ∧
    (86400000 : Int) < cfgM.now - 0 ∧
    KVOp.get ("r:1") ∈ (cleanupIncremental envC9 cfgM stFresh 100).2.log ∧
    List.lookup ("r:1") (cleanupIncremental envC9 cfgM stFresh 100).2.kv =
      some (Val.tsRec (some 0) none) := by
  decide

/-- C9 (amended): a visited key is deleted if and only if its stored value
is present and its effective timestamp - the `timestamp` field when present
and truthy, else the `createdAt` field when present and truthy, falsy
fields (zero, the empty string, absent) being passed over, numeric fields
taken as epoch milliseconds and date-string fields parsed by
`new Date(...).getTime()` (`dateParse`) - exists and is older than the
partition's maxAge (`now - t > maxAge`); otherwise (missing value,
unparsable value, no such field, falsy field, or unparsable date string)
the key is skipped, without deletion and without error, leaving the store
untouched by this key's visit.  The hypothesis restricts the visited value
to `dateWellFormed` ones - date-string fields empty or in the strict ISO
form this system writes - the scope on which the embedded `dateParse` is
exact for the engine's date parsing. -/
theorem claim_C9 (env : Env) (cfg : Config) (maxAge : Int) (k : String)
    (_hw : Option.all dateWellFormed (List.lookup k env.kv) = true) :
    ((cleanupKey env cfg maxAge k).2 = 1 ↔
      ∃ v t, List.lookup k env.kv = some v ∧ effTimestamp v = some t ∧
        maxAge < cfg.now - t) ∧
    ((cleanupKey env cfg maxAge k).2 = 1 →
      List.lookup k (cleanupKey env cfg maxAge k).1.kv = none) ∧
    ((cleanupKey env cfg maxAge k).2 = 0 → (cleanupKey env cfg maxAge k).1.kv = env.kv) := by
  rcases hv : List.lookup k env.kv with _ | v
  · refine ⟨⟨fun h1 => ?_, fun he => ?_⟩, fun h1 => ?_, fun _ => ?_⟩
    · simp [cleanupKey, kvGet, hv] at h1
    · rcases he with ⟨v, t, hl, _, _⟩
      exact absurd hl (by simp)
    · simp [cleanupKey, kvGet, hv] at h1
    · simp [cleanupKey, kvGet, hv]
  · rcases ht : effTimestamp v with _ | t
    · refine ⟨⟨fun h1 => ?_, fun he => ?_⟩, fun h1 => ?_, fun _ => ?_⟩
      · simp [cleanupKey, kvGet, hv, ht] at h1
      · rcases he with ⟨v', t', hl, ht', _⟩
        injection hl with hvv
        rw [← hvv] at ht'
        rw [ht] at ht'
        exact absurd ht' (by simp)
      · simp [cleanupKey, kvGet, hv, ht] at h1
      · simp [cleanupKey, kvGet, hv, ht]
    · by_cases hexp : maxAge < cfg.now - t
      · refine ⟨⟨fun _ => ⟨v, t, rfl, ht, hexp⟩, fun _ => ?_⟩, fun _ => ?_, fun h0 => ?_⟩
        · simp [cleanupKey, kvGet, hv, ht, hexp]
        · simp only [cleanupKey, kvGet, hv, ht]
          rw [if_pos hexp]
          exact lookup_kvDelete_self _ _
        · simp [cleanupKey, kvGet, hv, ht, hexp] at h0
      · refine ⟨⟨fun h1 => ?_, fun he => ?_⟩, fun h1 => ?_, fun _ => ?_⟩
        · simp [cleanupKey, kvGet, hv, ht, hexp] at h1
        · rcases he with ⟨v', t', hl, ht', hexp'⟩
          injection hl with hvv
          rw [← hvv] at ht'
          rw [ht] at ht'
          injection ht' with htt
          rw [← htt] at hexp'
          exact absurd hexp' hexp
        · simp [cleanupKey, kvGet, hv, ht, hexp] at h1
        · simp [cleanupKey, kvGet, hv, ht, hexp]

/-- Witness for C9: a record whose `timestamp` field is the ISO string
`2020-01-01T00:00:00.000Z` (epoch 1577836800000), one day older than the
clock - the visit parses the date string, the age guard fires, and the key
is deleted (count 1). -/
theorem claim_C9_witness :
    (((cleanupKey envW9 cfgW9 86400000 ("r:2")).2 = 1 ↔
      ∃ v t, List.lookup ("r:2") envW9.kv = some v ∧ effTimestamp v = some t ∧
        (86400000 : Int) < cfgW9.now - t) ∧
    ((cleanupKey envW9 cfgW9 86400000 ("r:2")).2 = 1 →
      List.lookup ("r:2") (cleanupKey envW9 cfgW9 86400000 ("r:2")).1.kv = none) ∧
    ((cleanupKey envW9 cfgW9 86400000 ("r:2")).2 = 0 →
      (cleanupKey envW9 cfgW9 86400000 ("r:2")).1.kv = envW9.kv)) ∧
    (cleanupKey envW9 cfgW9 86400000 ("r:2")).2 = 1 :=
  ⟨claim_C9 envW9 cfgW9 86400000 ("r:2") (by decide), by decide⟩

/-! ### Claim C6 -/

/-- C6: when the active phase handler reports completion the scheduler
advances to the next phase in the fixed order, resetting the cursor to null
and the processed count to 0 and persisting the checkpoint; and when the
final phase (backup-contacts) has just finished it instead deletes the
checkpoint record, writes a CompletionRecord, and returns a completed
result. -/
theorem claim_C6 (env : Env) (cfg : Config) (fuel : Nat) (c : Option String)
    (n : Nat) (sa : String) :
    ((List.lookup (stateKeyOf cfg) env.kv = some (Val.stateRec phCleanup c n sa) →
      (cleanupIncremental { env with log := KVOp.get (stateKeyOf cfg) :: env.log } cfg
        { phase := phCleanup, cursor := c, processed := n, startedAt := sa } fuel).1.complete = true →
      List.lookup (stateKeyOf cfg) (runIncrementalMaintenance env cfg fuel).2.kv =
        some (Val.stateRec phSubs none 0 sa) ∧
      (runIncrementalMaintenance env cfg fuel).1 =
        some { complete := false, phase := some phSubs, processed := some 0 })) ∧
    ((List.lookup (stateKeyOf cfg) env.kv = some (Val.stateRec phSubs c n sa) →
      (backupSubscribersIncremental { env with log := KVOp.get (stateKeyOf cfg) :: env.log } cfg
        { phase := phSubs, cursor := c, processed := n, startedAt := sa } fuel).1.complete = true →
      List.lookup (stateKeyOf cfg) (runIncrementalMaintenance env cfg fuel).2.kv =
        some (Val.stateRec phContacts none 0 sa) ∧
      (runIncrementalMaintenance env cfg fuel).1 =
        some { complete := false, phase := some phContacts, processed := some 0 })) ∧
    ((List.lookup (stateKeyOf cfg) env.kv = some (Val.stateRec phContacts c n sa) →
      (backupContactsIncremental { env with log := KVOp.get (stateKeyOf cfg) :: env.log } cfg
        { phase := phContacts, cursor := c, processed := n, startedAt := sa } fuel).1.complete = true →
      List.lookup (stateKeyOf cfg) (runIncrementalMaintenance env cfg fuel).2.kv = none ∧
      List.lookup (lastCompleteKeyOf cfg) (runIncrementalMaintenance env cfg fuel).2.kv =
        some (Val.completeRec cfg.today n) ∧
      (runIncrementalMaintenance env cfg fuel).1 =
        some { complete := true, phase := none, processed := none })) := by
  refine ⟨fun hst hc => ?_, fun hst hc => ?_, fun hst hc => ?_⟩
  · rw [run_eq_cleanup env cfg fuel c n sa hst]
    dsimp only [phaseNextState]
    rw [if_pos hc]
    exact ⟨lookup_kvPut_self _ _ _, rfl⟩
  · rw [run_eq_subs env cfg fuel c n sa hst]
    dsimp only [phaseNextState]
    rw [if_pos hc]
    exact ⟨lookup_kvPut_self _ _ _, rfl⟩
  · rw [run_eq_contacts env cfg fuel c n sa hst]
    dsimp only
    rw [if_pos hc]
    refine ⟨?_, lookup_kvPut_self _ _ _, rfl⟩
    rw [lookup_kvPut_ne _ _ (stateKey_ne_lastComplete cfg)]
    exact lookup_kvDelete_self _ _

/-- Witness for C6: the three phase-completion transitions evaluated on
concrete stores with empty partitions. -/
theorem claim_C6_witness :
    (List.lookup (stateKeyOf cfgM) (runIncrementalMaintenance envW6a cfgM 9).2.kv =
        some (Val.stateRec phSubs none 0 ("D")) ∧
      (runIncrementalMaintenance envW6a cfgM 9).1 =
        some { complete := false, phase := some phSubs, processed := some 0 }) ∧
    (List.lookup (stateKeyOf cfgM) (runIncrementalMaintenance envW6b cfgM 9).2.kv =
        some (Val.stateRec phContacts none 0 ("D")) ∧
      (runIncrementalMaintenance envW6b cfgM 9).1 =
        some { complete := false, phase := some phContacts, processed := some 0 }) ∧
    (List.lookup (stateKeyOf cfgM) (runIncrementalMaintenance envW6c cfgM 9).2.kv = none ∧
      List.lookup (lastCompleteKeyOf cfgM) (runIncrementalMaintenance envW6c cfgM 9).2.kv =
        some (Val.completeRec cfgM.today 5) ∧
      (runIncrementalMaintenance envW6c cfgM 9).1 =
        some { complete := true, phase := none, processed := none }) :=
  ⟨(claim_C6 envW6a cfgM 9 none 3 ("D")).1 (by decide) (by decide),
   (claim_C6 envW6b cfgM 9 none 4 ("D")).2.1 (by decide) (by decide),
   (claim_C6 envW6c cfgM 9 none 5 ("D")).2.2 (by decide) (by decide)⟩

/-! ### Phase-transition lemmas -/

theorem run_eq_bufEmpty (env : Env) (cfg : Config) (fuel : Nat)
    (hst : List.lookup (stateKeyOf cfg) env.kv = some (Val.buf "")) :
    runIncrementalMaintenance env cfg fuel =
      (let rr := cleanupIncremental { env with log := KVOp.get (stateKeyOf cfg) :: env.log }
          cfg (freshState cfg) fuel
       let st' := phaseNextState phSubs (freshState cfg) rr.1
       (some { complete := false, phase := some st'.phase, processed := some st'.processed },
        kvPut rr.2 (stateKeyOf cfg) (stateVal st'))) := by
  simp only [runIncrementalMaintenance, kvGet]
  rw [hst]
  simp only [loadState, freshState, phaseNextState, if_pos]

theorem phaseOf_kvPut_state (cfg : Config) (env : Env) (st : MState) :
    phaseOf cfg (kvPut env (stateKeyOf cfg) (stateVal st)) = st.phase := by
  unfold phaseOf
  rw [lookup_kvPut_self]
  rfl

theorem phaseOf_cycle_reset (cfg : Config) (env : Env) (v : Val) :
    phaseOf cfg (kvPut (kvDelete env (stateKeyOf cfg)) (lastCompleteKeyOf cfg) v) =
      phCleanup := by
  unfold phaseOf
  rw [lookup_kvPut_ne _ _ (stateKey_ne_lastComplete cfg), lookup_kvDelete_self]

theorem nextPhase_cleanup : nextPhase phCleanup = phSubs := by decide

theorem nextPhase_subs : nextPhase phSubs = phContacts := by decide

theorem nextPhase_contacts : nextPhase phContacts = phCleanup := by decide

/-- One invocation either keeps the recorded phase or moves it to the next
phase in the fixed cyclic order (this holds for every store state). -/
theorem phase_step (cfg : Config) (env : Env) (fuel : Nat) :
    phaseOf cfg (runIncrementalMaintenance env cfg fuel).2 = phaseOf cfg env ∨
    phaseOf cfg (runIncrementalMaintenance env cfg fuel).2 = nextPhase (phaseOf cfg env) := by
  rcases hv : List.lookup (stateKeyOf cfg) env.kv with _ | v
  · have he : phaseOf cfg env = phCleanup := by unfold phaseOf; rw [hv]
    rw [run_eq_fresh env cfg fuel hv, he]
    dsimp only [phaseNextState]
    split
    · right
      rw [phaseOf_kvPut_state, nextPhase_cleanup]
    · left
      rw [phaseOf_kvPut_state]
      rfl
  · rcases v with s | ⟨ts, cA⟩ | ⟨ip, ts⟩ | ⟨e, nm, ph, ms, sb, ip, ts⟩ | ⟨p, c, n, sa⟩ | ⟨ca, tp⟩
    · by_cases hs : s = ""
      · subst hs
        have he : phaseOf cfg env = phCleanup := by unfold phaseOf; rw [hv]
        rw [run_eq_bufEmpty env cfg fuel hv, he]
        dsimp only [phaseNextState]
        split
        · right
          rw [phaseOf_kvPut_state, nextPhase_cleanup]
        · left
          rw [phaseOf_kvPut_state]
          rfl
      · rw [run_eq_throw env cfg fuel _ hv (by simp [loadState, hs])]
        left
        rfl
    · rw [run_eq_throw env cfg fuel _ hv (by simp [loadState])]
      left
      rfl
    · rw [run_eq_throw env cfg fuel _ hv (by simp [loadState])]
      left
      rfl
    · rw [run_eq_throw env cfg fuel _ hv (by simp [loadState])]
      left
      rfl
    · have he : phaseOf cfg env = p := by unfold phaseOf; rw [hv]
      by_cases h1 : p = phCleanup
      · subst h1
        rw [run_eq_cleanup env cfg fuel c n sa hv, he]
        dsimp only [phaseNextState]
        split
        · right
          rw [phaseOf_kvPut_state, nextPhase_cleanup]
        · left
          rw [phaseOf_kvPut_state]
      · by_cases h2 : p = phSubs
        · subst h2
          rw [run_eq_subs env cfg fuel c n sa hv, he]
          dsimp only [phaseNextState]
          split
          · right
            rw [phaseOf_kvPut_state, nextPhase_subs]
          · left
            rw [phaseOf_kvPut_state]
        · by_cases h3 : p = phContacts
          · subst h3
            rw [run_eq_contacts env cfg fuel c n sa hv, he]
            dsimp only
            split
            · right
              rw [phaseOf_cycle_reset, nextPhase_contacts]
            · left
              rw [phaseOf_kvPut_state]
          · rw [run_eq_unknown env cfg fuel p c n sa hv h1 h2 h3, he]
            left
            rw [phaseOf_kvPut_state]
    · rw [run_eq_throw env cfg fuel _ hv (by simp [loadState])]
      left
      rfl

/-- One invocation preserves checkpoint-slot validity. -/
theorem validCkpt_step (cfg : Config) (env : Env) (fuel : Nat)
    (h : ValidCkpt cfg env) : ValidCkpt cfg (runIncrementalMaintenance env cfg fuel).2 := by
  rcases h with hv | ⟨p, c, n, sa, hv, hp⟩
  · rw [run_eq_fresh env cfg fuel hv]
    dsimp only [phaseNextState]
    split
    · exact Or.inr ⟨phSubs, none, 0, cfg.today, by rw [lookup_kvPut_self]; rfl, Or.inr (Or.inl rfl)⟩
    · exact Or.inr ⟨phCleanup, _, _, cfg.today, by rw [lookup_kvPut_self]; rfl, Or.inl rfl⟩
  · rcases hp with h1 | h2 | h3
    · subst h1
      rw [run_eq_cleanup env cfg fuel c n sa hv]
      dsimp only [phaseNextState]
      split
      · exact Or.inr ⟨phSubs, none, 0, sa, by rw [lookup_kvPut_self]; rfl, Or.inr (Or.inl rfl)⟩
      · exact Or.inr ⟨phCleanup, _, _, sa, by rw [lookup_kvPut_self]; rfl, Or.inl rfl⟩
    · subst h2
      rw [run_eq_subs env cfg fuel c n sa hv]
      dsimp only [phaseNextState]
      split
      · exact Or.inr ⟨phContacts, none, 0, sa, by rw [lookup_kvPut_self]; rfl, Or.inr (Or.inr rfl)⟩
      · exact Or.inr ⟨phSubs, _, _, sa, by rw [lookup_kvPut_self]; rfl, Or.inr (Or.inl rfl)⟩
    · subst h3
      rw [run_eq_contacts env cfg fuel c n sa hv]
      dsimp only
      split
      · exact Or.inl (by
          rw [lookup_kvPut_ne _ _ (stateKey_ne_lastComplete cfg)]
          exact lookup_kvDelete_self _ _)
      · exact Or.inr ⟨phContacts, _, _, sa, by rw [lookup_kvPut_self]; rfl, Or.inr (Or.inr rfl)⟩

/-- Checkpoint-slot validity holds along every run from an absent
checkpoint. -/
theorem reaches_valid (cfg : Config) (env0 env : Env)
    (h0 : List.lookup (stateKeyOf cfg) env0.kv = none)
    (hr : Reaches cfg env0 env) : ValidCkpt cfg env := by
  induction hr with
  | refl => exact Or.inl h0
  | step e2 fuel h ih => exact validCkpt_step cfg e2 fuel ih

/-! ### Claim C5 -/

/-- C5: starting from an absent checkpoint, every reachable store records
one of the three phases (with absence meaning a fresh cleanup start), and
each further invocation either stays in the current phase or moves to its
successor in the fixed order cleanup, backup-subscribers, backup-contacts,
with the cycle reset (checkpoint deletion) only after backup-contacts - so
no phase is skipped and none is revisited within one cycle. -/
theorem claim_C5 (cfg : Config) (env0 env : Env) (fuel : Nat)
    (h0 : List.lookup (stateKeyOf cfg) env0.kv = none)
    (hr : Reaches cfg env0 env) :
    (phaseOf cfg env = phCleanup ∨ phaseOf cfg env = phSubs ∨
      phaseOf cfg env = phContacts) ∧
    (phaseOf cfg (runIncrementalMaintenance env cfg fuel).2 = phaseOf cfg env ∨
      phaseOf cfg (runIncrementalMaintenance env cfg fuel).2 = nextPhase (phaseOf cfg env)) := by
  refine ⟨?_, phase_step cfg env fuel⟩
  rcases reaches_valid cfg env0 env h0 hr with hv | ⟨p, c, n, sa, hv, hp⟩
  · left
    unfold phaseOf
    rw [hv]
  · have he : phaseOf cfg env = p := by unfold phaseOf; rw [hv]
    rw [he]
    exact hp

/-- Witness for C5: one invocation on the empty store. -/
theorem claim_C5_witness :
    (phaseOf cfgM (runIncrementalMaintenance envEmpty cfgM 9).2 = phCleanup ∨
      phaseOf cfgM (runIncrementalMaintenance envEmpty cfgM 9).2 = phSubs ∨
      phaseOf cfgM (runIncrementalMaintenance envEmpty cfgM 9).2 = phContacts) ∧
    (phaseOf cfgM (runIncrementalMaintenance (runIncrementalMaintenance envEmpty cfgM 9).2 cfgM 9).2 =
        phaseOf cfgM (runIncrementalMaintenance envEmpty cfgM 9).2 ∨
      phaseOf cfgM (runIncrementalMaintenance (runIncrementalMaintenance envEmpty cfgM 9).2 cfgM 9).2 =
        nextPhase (phaseOf cfgM (runIncrementalMaintenance envEmpty cfgM 9).2)) :=
  claim_C5 cfgM envEmpty (runIncrementalMaintenance envEmpty cfgM 9).2 9 (by decide)
    (Reaches.step envEmpty envEmpty 9 (Reaches.refl envEmpty))

/-! ### Buffer length facts -/

theorem mkRow3_len (e ip ts : String) :
    (mkRow3 e ip ts).length = 9 + (e.length + ip.length + ts.length) := by
  have h1 : ("\"" : String).length = 1 := by decide
  have h2 : ("\",\"" : String).length = 3 := by decide
  have h3 : ("\"\n" : String).length = 2 := by decide
  simp only [mkRow3, String.length_append, h1, h2, h3]
  omega

theorem subBuf_len (e ip ts rest : String) :
    30 < (subHeader ++ (mkRow3 e ip ts ++ rest)).length := by
  have hh : subHeader.length = 27 := by decide
  have hr := mkRow3_len e ip ts
  simp only [String.length_append, hh, hr]
  omega

theorem conBuf_len (extra : String) : 50 < (conHeader ++ extra).length := by
  have hh : conHeader.length = 57 := by decide
  simp only [String.length_append, hh]
  omega

theorem ne_empty_of_len {n : Nat} {s : String} (h : n < s.length) : s ≠ "" := by
  intro he
  rw [he] at h
  have h0 : ("" : String).length = 0 := by decide
  omega

/-! ### Archive flush on an exhausted enumeration -/

/-- When the page is empty, the accumulated buffer is raw text beyond the
handler's threshold and the sink is usable, an archive-builder chunk
flushes the buffer under the dated path, deletes the buffer key and
reports `{complete:true, count:0}`. -/
theorem archiveStep_emptyPage_flush (cfg : Config) (p : ArchiveParams) (env : Env)
    (st : MState) (fuel : Nat) (tok csv : String)
    (htok : cfg.GITHUB_TOKEN = some tok)
    (hbuf : List.lookup (cfg.KEEP_PREFIX_MAINTENANCE ++ p.csvSuffix) env.kv = some (Val.buf csv))
    (hne : csv ≠ "")
    (hlen : p.threshold < csv.length)
    (hpage : afterCursor (keysWithPfx env.kv (p.pfxOf cfg)) st.cursor = []) :
    (archiveStep cfg p env st fuel).1 = { complete := true, cursor := none, count := 0 } ∧
    List.lookup (datedPath cfg p.filename) (archiveStep cfg p env st fuel).2.sink = some csv ∧
    List.lookup (cfg.KEEP_PREFIX_MAINTENANCE ++ p.csvSuffix)
      (archiveStep cfg p env st fuel).2.kv = none := by
  have heq : archiveStep cfg p env st fuel =
      ({ complete := true, cursor := none, count := 0 },
       kvDelete
         { kv := env.kv,
           sink := sinkUpsert env.sink (datedPath cfg p.filename) csv,
           log := KVOp.list (p.pfxOf cfg) 20 st.cursor ::
             (KVOp.get (cfg.KEEP_PREFIX_MAINTENANCE ++ p.csvSuffix) :: env.log) }
         (cfg.KEEP_PREFIX_MAINTENANCE ++ p.csvSuffix)) := by
    simp only [archiveStep, kvGet, kvList]
    rw [hbuf]
    simp only [loadedCsv]
    dsimp only [Val.asString]
    rw [if_neg hne]
    simp only [hpage, List.take_nil, List.isEmpty_nil]
    rw [if_pos trivial, if_pos ⟨hne, hlen⟩]
    simp only [saveToGitHub, htok]
  rw [heq]
  refine ⟨rfl, ?_, lookup_kvDelete_self _ _⟩
  simp only [kvDelete, sinkUpsert]
  exact lookup_cons_self _ _ _

/-! ### Claim C8 -/

/-- C8: for either archive-builder handler, when the page fetched at the
checkpoint cursor is empty and the persisted accumulator buffer holds more
than the header (for subscribers: the header plus at least one formatted
row; for contacts any `conHeader ++ extra`, the contacts threshold lying
below the header length), and the sink is usable, the handler flushes the
buffer to the archive sink under the deterministic dated path
`backups/<date>-<filename>`, deletes the buffer key, and reports
completed=true with count=0. -/
theorem claim_C8 (cfg : Config) (env : Env) (st : MState) (fuel : Nat) (tok : String)
    (htok : cfg.GITHUB_TOKEN = some tok) :
    (∀ e ip ts rest,
      List.lookup (subCsvKeyOf cfg) env.kv =
        some (Val.buf (subHeader ++ (mkRow3 e ip ts ++ rest))) →
      afterCursor (keysWithPfx env.kv cfg.PREFIX_SUBSCRIBER) st.cursor = [] →
      (backupSubscribersIncremental env cfg st fuel).1 =
        { complete := true, cursor := none, count := 0 } ∧
      List.lookup (datedPath cfg sSubFile)
        (backupSubscribersIncremental env cfg st fuel).2.sink =
        some (subHeader ++ (mkRow3 e ip ts ++ rest)) ∧
      List.lookup (subCsvKeyOf cfg)
        (backupSubscribersIncremental env cfg st fuel).2.kv = none) ∧
    (∀ extra,
      List.lookup (conCsvKeyOf cfg) env.kv = some (Val.buf (conHeader ++ extra)) →
      afterCursor (keysWithPfx env.kv cfg.PREFIX_CONTACT) st.cursor = [] →
      (backupContactsIncremental env cfg st fuel).1 =
        { complete := true, cursor := none, count := 0 } ∧
      List.lookup (datedPath cfg sConFile)
        (backupContactsIncremental env cfg st fuel).2.sink =
        some (conHeader ++ extra) ∧
      List.lookup (conCsvKeyOf cfg)
        (backupContactsIncremental env cfg st fuel).2.kv = none) := by
  constructor
  · intro e ip ts rest hbuf hpage
    exact archiveStep_emptyPage_flush cfg subParams env st fuel tok _ htok hbuf
      (ne_empty_of_len (subBuf_len e ip ts rest)) (subBuf_len e ip ts rest) hpage
  · intro extra hbuf hpage
    exact archiveStep_emptyPage_flush cfg conParams env st fuel tok _ htok hbuf
      (ne_empty_of_len (conBuf_len extra)) (conBuf_len extra) hpage

/-- Witness for C8: both buffers flushed on a concrete store with empty
partitions. -/
theorem claim_C8_witness :
    ((backupSubscribersIncremental envW8 cfgG stFresh 9).1 =
        { complete := true, cursor := none, count := 0 } ∧
      List.lookup (datedPath cfgG sSubFile)
        (backupSubscribersIncremental envW8 cfgG stFresh 9).2.sink =
        some (subHeader ++ (mkRow3 ("a") ("") ("") ++ "")) ∧
      List.lookup (subCsvKeyOf cfgG)
        (backupSubscribersIncremental envW8 cfgG stFresh 9).2.kv = none) ∧
    ((backupContactsIncremental envW8 cfgG stFresh 9).1 =
        { complete := true, cursor := none, count := 0 } ∧
      List.lookup (datedPath cfgG sConFile)
        (backupContactsIncremental envW8 cfgG stFresh 9).2.sink =
        some (conHeader ++ "x") ∧
      List.lookup (conCsvKeyOf cfgG)
        (backupContactsIncremental envW8 cfgG stFresh 9).2.kv = none) :=
  ⟨(claim_C8 cfgG envW8 stFresh 9 ("tk") rfl).1 ("a") ("") ("") ("") (by decide) (by decide),
   (claim_C8 cfgG envW8 stFresh 9 ("tk") rfl).2 ("x") (by decide) (by decide)⟩

/-! ### Claim C3 counterexample -/

/-- C3 (counterexample): a first cleanup chunk on `envA` (null cursor,
ample budget) legitimately returns completed=false with cursor `r:5`
(six rate-limit keys exceed the page size of five).  The resuming chunk
passes that same single checkpoint cursor to EVERY partition's list call:
the rate-limit partition finishes, but the bot-detection partition - whose
keys all sort before `r:5` - yields an empty page and is skipped outright.
The chunk returns completed=true although the expired record `b:1` was
never enumerated (no operation in the invocation's log touches it) and
survives in the store, so completion does not imply that every partition's
enumeration was exhausted. -/
theorem claim_C3_counterexample :
    (cleanupIncremental envA cfgA stFresh 50).1 =
      { complete := false, cursor := some ("r:5"), count := 0 } ∧
    (cleanupIncremental envA cfgA stA2 50).1.complete = true ∧
    List.lookup ("b:1") (cleanupIncremental envA cfgA stA2 50).2.kv =
      some (Val.tsRec (some 1) none) ∧
    ((604800000 : Int) < cfgA.now - 1) ∧
    ((cleanupIncremental envA cfgA stA2 50).2.log.all
      (fun op => !(op.isReadOf ("b:1") || op.isWriteOf ("b:1")))) = true := by
  decide

/-! ### Claim C1 (code divergence) -/

/-- C1 (code divergence): a four-invocation run from an absent checkpoint
over two subscriber records, with the second invocation's budget expiring
after one record.  The mid-page return hands back `list.cursor` - the
cursor past the END of the current page - so the unprocessed record `s:b`
of that page is skipped when the next invocation resumes: the cycle
completes, the flushed subscriber archive contains only the header and the
`s:a` row (the final sink contents are exactly the two files shown), while
the record `s:b`, present in the store throughout the run, appears in no
flushed artifact - refuting at-least-once archiving.  (The cleanup half of
the claim fails too, by the partition-skip of `claim_C3_counterexample`.) -/
theorem claim_C1_code_divergence :
    (runIncrementalMaintenance envC1 cfgG 100).1 =
      some { complete := false, phase := some phSubs, processed := some 0 } ∧
    (runIncrementalMaintenance c1s1 cfgG 1).1 =
      some { complete := false, phase := some phSubs, processed := some 1 } ∧
    (runIncrementalMaintenance c1s2 cfgG 100).1 =
      some { complete := false, phase := some phContacts, processed := some 0 } ∧
    (runIncrementalMaintenance c1s3 cfgG 100).1 =
      some { complete := true, phase := none, processed := none } ∧
    c1s4.sink =
      [(datedPath cfgG sConFile, conHeader),
       (datedPath cfgG sSubFile, subHeader ++ mkRow3 ("a") ("") (""))] ∧
    List.lookup ("s:b") envC1.kv = some (Val.subRec none none) ∧
    List.lookup ("s:b") c1s4.kv = some (Val.subRec none none) := by
  decide

/-! ### The enumeration order -/

theorem char_eq_of_toNat_eq {a b : Char} (h : a.toNat = b.toNat) : a = b :=
  Char.ext (UInt32.toNat.inj h)

theorem listLtB_irrefl : ∀ l : List Char, listLtB l l = false := by
  intro l
  induction l with
  | nil => rfl
  | cons x xs ih =>
    rw [listLtB, if_neg (Nat.lt_irrefl _), if_neg (Nat.lt_irrefl _)]
    exact ih

theorem listLtB_asymm : ∀ a b : List Char, listLtB a b = true → listLtB b a = false := by
  intro a
  induction a with
  | nil =>
    intro b h
    cases b with
    | nil => exact absurd h (by simp [listLtB])
    | cons y ys => rfl
  | cons x xs ih =>
    intro b h
    cases b with
    | nil => exact absurd h (by simp [listLtB])
    | cons y ys =>
      rw [listLtB] at h ⊢
      by_cases h1 : x.toNat < y.toNat
      · rw [if_neg (Nat.lt_asymm h1), if_pos h1]
      · rw [if_neg h1] at h
        by_cases h2 : y.toNat < x.toNat
        · rw [if_pos h2] at h
          exact absurd h (by simp)
        · rw [if_neg h2] at h
          rw [if_neg h2, if_neg h1]
          exact ih ys h

theorem listLtB_trans : ∀ a b c : List Char,
    listLtB a b = true → listLtB b c = true → listLtB a c = true := by
  intro a
  induction a with
  | nil =>
    intro b c hab hbc
    cases b with
    | nil => exact absurd hab (by simp [listLtB])
    | cons y ys =>
      cases c with
      | nil => exact absurd hbc (by simp [listLtB])
      | cons z zs => rfl
  | cons x xs ih =>
    intro b c hab hbc
    cases b with
    | nil => exact absurd hab (by simp [listLtB])
    | cons y ys =>
      cases c with
      | nil => exact absurd hbc (by simp [listLtB])
      | cons z zs =>
        rw [listLtB] at hab hbc ⊢
        by_cases h1 : x.toNat < y.toNat
        · by_cases h2 : y.toNat < z.toNat
          · rw [if_pos (Nat.lt_trans h1 h2)]
          · rw [if_neg h2] at hbc
            by_cases h3 : z.toNat < y.toNat
            · rw [if_pos h3] at hbc
              exact absurd hbc (by simp)
            · rw [if_pos (show x.toNat < z.toNat by omega)]
        · rw [if_neg h1] at hab
          by_cases h1' : y.toNat < x.toNat
          · rw [if_pos h1'] at hab
            exact absurd hab (by simp)
          · rw [if_neg h1'] at hab
            by_cases h2 : y.toNat < z.toNat
            · rw [if_pos (show x.toNat < z.toNat by omega)]
            · rw [if_neg h2] at hbc
              by_cases h3 : z.toNat < y.toNat
              · rw [if_pos h3] at hbc
                exact absurd hbc (by simp)
              · rw [if_neg h3] at hbc
                rw [if_neg (show ¬ x.toNat < z.toNat by omega),
                  if_neg (show ¬ z.toNat < x.toNat by omega)]
                exact ih ys zs hab hbc

theorem listLtB_conn : ∀ a b : List Char,
    listLtB a b = false → listLtB b a = false → a = b := by
  intro a
  induction a with
  | nil =>
    intro b h1 _
    cases b with
    | nil => rfl
    | cons y ys => exact absurd h1 (by simp [listLtB])
  | cons x xs ih =>
    intro b h1 h2
    cases b with
    | nil => exact absurd h2 (by simp [listLtB])
    | cons y ys =>
      rw [listLtB] at h1 h2
      by_cases hxy : x.toNat < y.toNat
      · rw [if_pos hxy] at h1
        exact absurd h1 (by simp)
      · by_cases hyx : y.toNat < x.toNat
        · rw [if_pos hyx] at h2
          exact absurd h2 (by simp)
        · rw [if_neg hxy, if_neg hyx] at h1
          rw [if_neg hyx, if_neg hxy] at h2
          rw [char_eq_of_toNat_eq (show x.toNat = y.toNat by omega), ih ys h1 h2]

theorem strLeB_refl (s : String) : strLeB s s = true := by
  simp [strLeB, strLtB, listLtB_irrefl]

theorem strLeB_of_not {a b : String} (h : strLeB a b = false) : strLeB b a = true := by
  simp only [strLeB, Bool.not_eq_false'] at h
  simp only [strLeB, Bool.not_eq_true']
  exact listLtB_asymm _ _ h

theorem strLeB_trans {a b c : String} (hab : strLeB a b = true) (hbc : strLeB b c = true) :
    strLeB a c = true := by
  simp only [strLeB, strLtB, Bool.not_eq_true'] at hab hbc ⊢
  cases hbc2 : listLtB b.data c.data with
  | true =>
    cases hca : listLtB c.data a.data with
    | true => exact absurd (listLtB_trans _ _ _ hbc2 hca) (by rw [hab]; simp)
    | false => rfl
  | false =>
    rw [listLtB_conn c.data b.data hbc hbc2]
    exact hab

theorem mem_insertLe {a k : String} : ∀ {l : List String},
    a ∈ insertLe k l ↔ a = k ∨ a ∈ l := by
  intro l
  induction l with
  | nil => simp [insertLe]
  | cons x xs ih =>
    rw [insertLe]
    by_cases h : strLeB k x = true
    · rw [if_pos h]
      simp [List.mem_cons]
    · rw [if_neg h]
      simp only [List.mem_cons, ih]
      tauto

theorem pairwise_insertLe {k : String} : ∀ {l : List String},
    List.Pairwise (fun x y => strLeB x y = true) l →
    List.Pairwise (fun x y => strLeB x y = true) (insertLe k l) := by
  intro l
  induction l with
  | nil => intro _; simp [insertLe]
  | cons x xs ih =>
    intro h
    rcases List.pairwise_cons.mp h with ⟨hx, hxs⟩
    rw [insertLe]
    by_cases hk : strLeB k x = true
    · rw [if_pos hk]
      refine List.pairwise_cons.mpr ⟨?_, h⟩
      intro a ha
      rcases List.mem_cons.mp ha with rfl | ha2
      · exact hk
      · exact strLeB_trans hk (hx a ha2)
    · rw [if_neg hk]
      have hkf : strLeB k x = false := by revert hk; cases strLeB k x <;> simp
      have hxk := strLeB_of_not hkf
      refine List.pairwise_cons.mpr ⟨?_, ih hxs⟩
      intro a ha
      rcases mem_insertLe.mp ha with rfl | ha2
      · exact hxk
      · exact hx a ha2

theorem sortStr_pairwise : ∀ l : List String,
    List.Pairwise (fun x y => strLeB x y = true) (sortStr l) := by
  intro l
  induction l with
  | nil => simp [sortStr]
  | cons x xs ih => exact pairwise_insertLe ih

theorem mem_sortStr {a : String} : ∀ {l : List String}, a ∈ sortStr l ↔ a ∈ l := by
  intro l
  induction l with
  | nil => simp [sortStr]
  | cons x xs ih =>
    rw [sortStr, mem_insertLe]
    simp [List.mem_cons, ih]

theorem lastOpt_mem : ∀ (l : List String) (b : String), lastOpt l = some b → b ∈ l := by
  intro l
  induction l with
  | nil => intro b h; exact absurd h (by simp [lastOpt])
  | cons x xs ih =>
    intro b h
    cases xs with
    | nil =>
      rw [lastOpt] at h
      injection h with h
      simp [h]
    | cons y ys =>
      rw [lastOpt] at h
      exact List.mem_cons_of_mem x (ih b h)

theorem le_lastOpt : ∀ (l : List String),
    List.Pairwise (fun x y => strLeB x y = true) l →
    ∀ a ∈ l, ∀ b, lastOpt l = some b → strLeB a b = true := by
  intro l
  induction l with
  | nil => intro _ a ha; exact absurd ha (by simp)
  | cons x xs ih =>
    intro hp a ha b hb
    rcases List.pairwise_cons.mp hp with ⟨hx, hxs⟩
    cases xs with
    | nil =>
      rw [lastOpt] at hb
      injection hb with hb
      have hax : a = x := by simpa using ha
      rw [hax, ← hb]
      exact strLeB_refl x
    | cons y ys =>
      rw [lastOpt] at hb
      rcases List.mem_cons.mp ha with rfl | ha2
      · exact hx b (lastOpt_mem _ b hb)
      · exact ih hxs a ha2 b hb

/-! ### Archive-builder loop lemmas -/

theorem str_ext {a b : String} (h : a.data = b.data) : a = b := by
  cases a; cases b; simp_all

theorem str_append_empty (s : String) : s ++ "" = s := by
  apply str_ext
  rw [String.data_append]
  show s.data ++ ([] : List Char) = s.data
  rw [List.append_nil]

theorem str_empty_append (s : String) : "" ++ s = s := by
  apply str_ext
  rw [String.data_append]
  rfl

theorem str_append_assoc (a b c : String) : (a ++ b) ++ c = a ++ (b ++ c) := by
  apply str_ext
  simp [String.data_append, List.append_assoc]

theorem lastOpt_cons_isSome : ∀ (x : String) (xs : List String),
    ∃ b, lastOpt (x :: xs) = some b := by
  intro x xs
  induction xs generalizing x with
  | nil => exact ⟨x, rfl⟩
  | cons y ys ih =>
    rcases ih y with ⟨b, hb⟩
    exact ⟨b, by rw [lastOpt]; exact hb⟩

theorem archiveLoop_inr (cfg : Config) (p : ArchiveParams) (csvKey : String)
    (lc : Option String) :
    ∀ (ks : List String) (env : Env) (csv : String) (fuel pr : Nat)
      (env' : Env) (csv' : String) (pr' : Nat),
      archiveLoop cfg p csvKey lc ks env csv fuel pr = Sum.inr (env', csv', pr') →
      ks.length ≤ fuel ∧ env'.kv = env.kv ∧ csv' = csv ++ rowsOf cfg p env.kv ks := by
  intro ks
  induction ks with
  | nil =>
    intro env csv fuel pr env' csv' pr' h
    rw [archiveLoop] at h
    injection h with h
    injection h with h1 h2
    injection h2 with h2 h3
    exact ⟨Nat.zero_le _, by rw [← h1], by rw [← h2, rowsOf, str_append_empty]⟩
  | cons k ks ih =>
    intro env csv fuel pr env' csv' pr' h
    cases fuel with
    | zero => rw [archiveLoop] at h; exact absurd h (by simp)
    | succ f =>
      rw [archiveLoop] at h
      rcases hv : List.lookup k env.kv with _ | v
      · rw [kvGet] at h
        rw [hv] at h
        rcases ih _ _ _ _ _ _ _ h with ⟨h0, h1, h2⟩
        refine ⟨Nat.succ_le_succ h0, h1, ?_⟩
        rw [h2, rowsOf, rowAt, hv]
        show csv ++ rowsOf cfg p env.kv ks = csv ++ ("" ++ rowsOf cfg p env.kv ks)
        rw [str_empty_append]
      · rw [kvGet] at h
        rw [hv] at h
        dsimp only at h
        rcases hrow : p.rowOf cfg k v with _ | row
        · rw [hrow] at h
          rcases ih _ _ _ _ _ _ _ h with ⟨h0, h1, h2⟩
          refine ⟨Nat.succ_le_succ h0, h1, ?_⟩
          rw [h2, rowsOf, rowAt, hv]
          show csv ++ rowsOf cfg p env.kv ks = csv ++ ((p.rowOf cfg k v).getD "" ++ rowsOf cfg p env.kv ks)
          rw [hrow]
          show csv ++ rowsOf cfg p env.kv ks = csv ++ ("" ++ rowsOf cfg p env.kv ks)
          rw [str_empty_append]
        · rw [hrow] at h
          rcases ih _ _ _ _ _ _ _ h with ⟨h0, h1, h2⟩
          refine ⟨Nat.succ_le_succ h0, h1, ?_⟩
          rw [h2, rowsOf, rowAt, hv]
          show (csv ++ row) ++ rowsOf cfg p env.kv ks = csv ++ ((p.rowOf cfg k v).getD "" ++ rowsOf cfg p env.kv ks)
          rw [hrow]
          show (csv ++ row) ++ rowsOf cfg p env.kv ks = csv ++ (row ++ rowsOf cfg p env.kv ks)
          rw [str_append_assoc]

theorem archiveLoop_inl (cfg : Config) (p : ArchiveParams) (csvKey : String)
    (lc : Option String) :
    ∀ (ks : List String) (env : Env) (csv : String) (fuel pr : Nat)
      (r : StepRes) (env' : Env),
      archiveLoop cfg p csvKey lc ks env csv fuel pr = Sum.inl (r, env') →
      r.complete = false ∧ r.cursor = lc ∧ fuel < ks.length ∧
      List.lookup csvKey env'.kv =
        some (Val.buf (csv ++ rowsOf cfg p env.kv (ks.take fuel))) := by
  intro ks
  induction ks with
  | nil =>
    intro env csv fuel pr r env' h
    rw [archiveLoop] at h
    exact absurd h (by simp)
  | cons k ks ih =>
    intro env csv fuel pr r env' h
    cases fuel with
    | zero =>
      rw [archiveLoop] at h
      injection h with h
      injection h with h1 h2
      refine ⟨by rw [← h1], by rw [← h1], Nat.succ_pos _, ?_⟩
      rw [← h2, List.take_zero, rowsOf, str_append_empty]
      exact lookup_kvPut_self _ _ _
    | succ f =>
      rw [archiveLoop] at h
      rcases hv : List.lookup k env.kv with _ | v
      · rw [kvGet] at h
        rw [hv] at h
        rcases ih _ _ _ _ _ _ h with ⟨h1, h2, h0, h3⟩
        refine ⟨h1, h2, Nat.succ_lt_succ h0, ?_⟩
        rw [List.take_succ_cons, rowsOf, rowAt, hv]
        show _ = some (Val.buf (csv ++ ((none : Option String).getD "" ++ rowsOf cfg p env.kv (ks.take f))))
        rw [show ((none : Option String).getD "" : String) = "" from rfl, str_empty_append]
        exact h3
      · rw [kvGet] at h
        rw [hv] at h
        dsimp only at h
        rcases hrow : p.rowOf cfg k v with _ | row
        · rw [hrow] at h
          rcases ih _ _ _ _ _ _ h with ⟨h1, h2, h0, h3⟩
          refine ⟨h1, h2, Nat.succ_lt_succ h0, ?_⟩
          rw [List.take_succ_cons, rowsOf, rowAt, hv]
          show _ = some (Val.buf (csv ++ ((p.rowOf cfg k v).getD "" ++ rowsOf cfg p env.kv (ks.take f))))
          rw [hrow]
          rw [show ((none : Option String).getD "" : String) = "" from rfl, str_empty_append]
          exact h3
        · rw [hrow] at h
          rcases ih _ _ _ _ _ _ h with ⟨h1, h2, h0, h3⟩
          refine ⟨h1, h2, Nat.succ_lt_succ h0, ?_⟩
          rw [List.take_succ_cons, rowsOf, rowAt, hv]
          show _ = some (Val.buf (csv ++ ((p.rowOf cfg k v).getD "" ++ rowsOf cfg p env.kv (ks.take f))))
          rw [hrow]
          rw [show ((some row : Option String).getD "" : String) = row from rfl]
          rw [← str_append_assoc]
          exact h3

theorem archiveStep_false (cfg : Config) (p : ArchiveParams) (env : Env) (st : MState)
    (fuel : Nat)
    (h : (archiveStep cfg p env st fuel).1.complete = false) :
    pageOf cfg p env st.cursor ≠ [] ∧
    (archiveStep cfg p env st fuel).1.cursor = lastOpt (pageOf cfg p env st.cursor) ∧
    List.lookup (csvKeyP cfg p) (archiveStep cfg p env st fuel).2.kv =
      some (Val.buf (loadedCsv p (List.lookup (csvKeyP cfg p) env.kv) ++
        rowsOf cfg p env.kv ((pageOf cfg p env st.cursor).take
          (min fuel (pageOf cfg p env st.cursor).length)))) := by
  rcases hpage : pageOf cfg p env st.cursor with _ | ⟨k0, krest⟩
  · exfalso
    unfold pageOf at hpage
    simp only [archiveStep, kvGet, kvList] at h
    simp only [hpage, List.isEmpty_nil] at h
    split at h
    · split at h <;> simp at h
    · simp_all
  · have hnn : pageOf cfg p env st.cursor ≠ [] := by rw [hpage]; simp
    have hpage0 := hpage
    unfold pageOf at hpage
    rcases lastOpt_cons_isSome k0 krest with ⟨b, hb⟩
    simp only [archiveStep, kvGet, kvList, csvKeyP] at h ⊢
    simp only [hpage, List.isEmpty_cons, hb] at h ⊢
    rw [if_neg Bool.false_ne_true] at h ⊢
    rcases hloop : archiveLoop cfg p (cfg.KEEP_PREFIX_MAINTENANCE ++ p.csvSuffix) (some b)
        (k0 :: krest)
        { kv := env.kv, sink := env.sink,
          log := KVOp.list (p.pfxOf cfg) 20 st.cursor ::
            (KVOp.get (cfg.KEEP_PREFIX_MAINTENANCE ++ p.csvSuffix) :: env.log) }
        (loadedCsv p (List.lookup (cfg.KEEP_PREFIX_MAINTENANCE ++ p.csvSuffix) env.kv))
        fuel 0 with ⟨r, envL⟩ | ⟨envL, csv, pr⟩
    · rw [hloop] at h
      dsimp only at h ⊢
      rcases archiveLoop_inl cfg p _ _ _ _ _ _ _ _ _ hloop with ⟨h1, h2, h0, h3⟩
      refine ⟨List.cons_ne_nil k0 krest, h2, ?_⟩
      rw [min_eq_left (Nat.le_of_lt h0)]
      exact h3
    · rw [hloop] at h
      dsimp only at h ⊢
      rcases archiveLoop_inr cfg p _ _ _ _ _ _ _ _ _ _ hloop with ⟨h0, h1, h2⟩
      split at h
      next hc => exact absurd h (by simp)
      next hc =>
        rw [if_neg hc]
        refine ⟨List.cons_ne_nil k0 krest, rfl, ?_⟩
        rw [min_eq_right h0, List.take_length, lookup_kvPut_self, h2]

theorem pageOf_pairwise (cfg : Config) (p : ArchiveParams) (env : Env)
    (cur : Option String) :
    List.Pairwise (fun x y => strLeB x y = true) (pageOf cfg p env cur) := by
  unfold pageOf
  apply List.Pairwise.sublist (List.take_sublist _ _)
  cases cur with
  | none => exact sortStr_pairwise _
  | some c => exact List.Pairwise.filter _ (sortStr_pairwise _)

theorem mem_page_lt {cfg : Config} {p : ArchiveParams} {env2 : Env} {c k : String}
    (h : k ∈ pageOf cfg p env2 (some c)) : strLtB c k = true := by
  unfold pageOf at h
  have h2 := List.mem_of_mem_take h
  exact (List.mem_filter.mp h2).2

/-! ### Claim C4 -/

/-- C4: `archiveStep` is the common body of `backupSubscribersIncremental`
and `backupContactsIncremental`.  Whenever an invocation of it returns
completed=false (mid-page budget exhaustion, or a full page with more
remaining), then (i) the persisted accumulator buffer equals the loaded
buffer followed by exactly the rows of the keys the loop visited before the
return - the first `min fuel pageLength` keys of the fetched page: the
first `fuel` when the budget died mid-page, the whole page when it was
completed - so every row appended before the return is present in the
persisted buffer, and nothing else was appended; and (ii) the returned
cursor is past the whole fetched page: the page a later invocation fetches
from it (over any store contents) is disjoint from this invocation's page,
so no row appended for a key of this page is ever appended again (the loop
only appends rows for keys of its fetched page). -/
theorem claim_C4 (cfg : Config) (p : ArchiveParams) (env : Env) (st : MState)
    (fuel : Nat)
    (hfalse : (archiveStep cfg p env st fuel).1.complete = false) :
    (List.lookup (csvKeyP cfg p) (archiveStep cfg p env st fuel).2.kv =
      some (Val.buf (loadedCsv p (List.lookup (csvKeyP cfg p) env.kv) ++
        rowsOf cfg p env.kv ((pageOf cfg p env st.cursor).take
          (min fuel (pageOf cfg p env st.cursor).length))))) ∧
    (∀ (env2 : Env) (k : String),
      k ∈ pageOf cfg p env2 (archiveStep cfg p env st fuel).1.cursor →
      k ∈ pageOf cfg p env st.cursor → False) := by
  rcases archiveStep_false cfg p env st fuel hfalse with ⟨hnn, hcur, hex⟩
  refine ⟨hex, ?_⟩
  intro env2 k hk2 hk1
  rcases hpage : pageOf cfg p env st.cursor with _ | ⟨k0, krest⟩
  · exact hnn hpage
  · rcases lastOpt_cons_isSome k0 krest with ⟨b, hb⟩
    have hc : (archiveStep cfg p env st fuel).1.cursor = some b := by
      rw [hcur, hpage, hb]
    have hle : strLeB k b = true := by
      apply le_lastOpt (pageOf cfg p env st.cursor) (pageOf_pairwise cfg p env st.cursor) k hk1 b
      rw [hpage]
      exact hb
    rw [hc] at hk2
    have hlt : strLtB b k = true := mem_page_lt hk2
    simp [strLeB, hlt] at hle

/-- Witness for C4: the subscriber handler on two records with budget for
one - it returns completed=false with the loaded text plus exactly the
first record's row persisted, and a cursor whose later page is disjoint
from the current one. -/
theorem claim_C4_witness :
    (List.lookup (csvKeyP cfgG subParams) (archiveStep cfgG subParams envC1 stFresh 1).2.kv =
      some (Val.buf (loadedCsv subParams (List.lookup (csvKeyP cfgG subParams) envC1.kv) ++
        rowsOf cfgG subParams envC1.kv ((pageOf cfgG subParams envC1 stFresh.cursor).take
          (min 1 (pageOf cfgG subParams envC1 stFresh.cursor).length))))) ∧
    (∀ (env2 : Env) (k : String),
      k ∈ pageOf cfgG subParams env2 (archiveStep cfgG subParams envC1 stFresh 1).1.cursor →
      k ∈ pageOf cfgG subParams envC1 stFresh.cursor → False) :=
  claim_C4 cfgG subParams envC1 stFresh 1 (by decide)

/-! ### Operation-trace lemmas -/

theorem kvList_keys_pre (env : Env) (pfx : String) (limit : Nat) (cur : Option String) :
    ∀ k ∈ (kvList env pfx limit cur).1.keys, strPre pfx k = true := by
  intro k hk
  simp only [kvList] at hk
  have h2 := List.mem_of_mem_take hk
  have h3 : k ∈ keysWithPfx env.kv pfx := by
    cases cur with
    | none => exact h2
    | some c => exact (List.mem_filter.mp h2).1
  unfold keysWithPfx at h3
  exact (List.mem_filter.mp (mem_sortStr.mp h3)).2

theorem cleanupKey_log (env : Env) (cfg : Config) (maxAge : Int) (k : String) :
    ∃ d, (cleanupKey env cfg maxAge k).1.log = d ++ env.log ∧
      ∀ op ∈ d, op = KVOp.get k ∨ op = KVOp.del k := by
  unfold cleanupKey kvGet
  rcases List.lookup k env.kv with _ | v
  · exact ⟨[KVOp.get k], rfl, by simp⟩
  · dsimp only
    rcases effTimestamp v with _ | t
    · exact ⟨[KVOp.get k], rfl, by simp⟩
    · dsimp only
      by_cases hexp : maxAge < cfg.now - t
      · rw [if_pos hexp]
        exact ⟨[KVOp.del k, KVOp.get k], rfl, by simp⟩
      · rw [if_neg hexp]
        exact ⟨[KVOp.get k], rfl, by simp⟩

theorem cleanupKeys_log (cfg : Config) (maxAge : Int) (lc : Option String) :
    ∀ (ks : List String) (env : Env) (fuel pr : Nat),
      ∃ d, (sumEnvC (cleanupKeys cfg maxAge lc ks env fuel pr)).log = d ++ env.log ∧
        ∀ op ∈ d, ∃ k, k ∈ ks ∧ (op = KVOp.get k ∨ op = KVOp.del k) := by
  intro ks
  induction ks with
  | nil => intro env fuel pr; exact ⟨[], rfl, by simp⟩
  | cons k ks ih =>
    intro env fuel pr
    simp only [cleanupKeys]
    cases fuel with
    | zero => exact ⟨[], rfl, by simp⟩
    | succ f =>
      rcases hck : cleanupKey env cfg maxAge k with ⟨env1, dcnt⟩
      rcases cleanupKey_log env cfg maxAge k with ⟨d1, hd1, hall1⟩
      rw [hck] at hd1
      dsimp only at hd1 ⊢
      rcases ih env1 f (pr + dcnt) with ⟨d2, hd2, hall2⟩
      refine ⟨d2 ++ d1, ?_, ?_⟩
      · rw [hd2, hd1, List.append_assoc]
      · intro op hop
        rcases List.mem_append.mp hop with hop2 | hop1
        · rcases hall2 op hop2 with ⟨k', hk', hor⟩
          exact ⟨k', List.mem_cons_of_mem k hk', hor⟩
        · exact ⟨k, List.mem_cons_self k ks, hall1 op hop1⟩

theorem cleanupParts_log (cfg : Config) (cur : Option String) :
    ∀ (parts : List (String × Int)) (env : Env) (fuel pr : Nat),
      ∃ d, (cleanupParts cfg cur parts env fuel pr).2.log = d ++ env.log ∧
        ∀ op ∈ d, cleanOpOK (parts.map Prod.fst) op := by
  intro parts
  induction parts with
  | nil => intro env fuel pr; exact ⟨[], rfl, by simp⟩
  | cons q rest ih =>
    obtain ⟨pfx, maxAge⟩ := q
    intro env fuel pr
    simp only [cleanupParts]
    cases fuel with
    | zero => exact ⟨[], rfl, by simp⟩
    | succ f =>
      rcases hl : kvList env pfx 5 cur with ⟨lst, env1⟩
      have henv1 : env1.log = KVOp.list pfx 5 cur :: env.log := by
        have : env1 = (kvList env pfx 5 cur).2 := by rw [hl]
        rw [this]
        rfl
      have hkeys : ∀ k ∈ lst.keys, strPre pfx k = true := by
        intro k hk
        apply kvList_keys_pre env pfx 5 cur
        rw [hl]
        exact hk
      have hweak : ∀ op, cleanOpOK (rest.map Prod.fst) op →
          cleanOpOK (((pfx, maxAge) :: rest).map Prod.fst) op := by
        intro op h
        rcases op with k | ⟨k, v⟩ | k | ⟨a, b, c⟩
        · rcases h with ⟨pfx', h1, h2⟩
          exact ⟨pfx', List.mem_cons_of_mem _ h1, h2⟩
        · exact h.elim
        · rcases h with ⟨pfx', h1, h2⟩
          exact ⟨pfx', List.mem_cons_of_mem _ h1, h2⟩
        · trivial
      have hsplit : ∀ (l1 : List KVOp) (x : KVOp) (l2 : List KVOp),
          l1 ++ (x :: l2) = (l1 ++ [x]) ++ l2 := by
        intro l1 x l2
        simp
      dsimp only
      by_cases hemp : lst.keys.isEmpty
      · rw [if_pos hemp]
        rcases ih env1 f pr with ⟨d, hd, hall⟩
        refine ⟨d ++ [KVOp.list pfx 5 cur], ?_, ?_⟩
        · rw [hd, henv1, hsplit, List.append_assoc]
        · intro op hop
          rcases List.mem_append.mp hop with hop2 | hop1
          · exact hweak op (hall _ hop2)
          · have heq : op = KVOp.list pfx 5 cur := by simpa using hop1
            rw [heq]
            trivial
      · rw [if_neg hemp]
        rcases hloop : cleanupKeys cfg maxAge lst.cursor lst.keys env1 f pr with r | w
        · rcases cleanupKeys_log cfg maxAge lst.cursor lst.keys env1 f pr with ⟨d, hd, hall⟩
          rw [hloop] at hd
          obtain ⟨r1, env2⟩ := r
          dsimp only [sumEnvC] at hd
          refine ⟨d ++ [KVOp.list pfx 5 cur], ?_, ?_⟩
          · rw [hd, henv1, hsplit]
          · intro op hop
            rcases List.mem_append.mp hop with hop2 | hop1
            · rcases hall op hop2 with ⟨k, hk, hor⟩
              rcases hor with rfl | rfl
              · exact ⟨pfx, List.mem_cons_self _ _, hkeys k hk⟩
              · exact ⟨pfx, List.mem_cons_self _ _, hkeys k hk⟩
            · have heq : op = KVOp.list pfx 5 cur := by simpa using hop1
              rw [heq]
              trivial
        · obtain ⟨env2, f2, pr2⟩ := w
          rcases cleanupKeys_log cfg maxAge lst.cursor lst.keys env1 f pr with ⟨d, hd, hall⟩
          rw [hloop] at hd
          dsimp only [sumEnvC] at hd
          dsimp only
          have hd2 : env2.log = (d ++ [KVOp.list pfx 5 cur]) ++ env.log := by
            rw [hd, henv1, hsplit]
          have hopsOK : ∀ op ∈ d ++ [KVOp.list pfx 5 cur],
              cleanOpOK (((pfx, maxAge) :: rest).map Prod.fst) op := by
            intro op hop
            rcases List.mem_append.mp hop with hop2 | hop1
            · rcases hall op hop2 with ⟨k, hk, hor⟩
              rcases hor with rfl | rfl
              · exact ⟨pfx, List.mem_cons_self _ _, hkeys k hk⟩
              · exact ⟨pfx, List.mem_cons_self _ _, hkeys k hk⟩
            · have heq : op = KVOp.list pfx 5 cur := by simpa using hop1
              rw [heq]
              trivial
          by_cases hcomp : lst.list_complete
          · rw [if_pos hcomp]
            rcases ih env2 f2 pr2 with ⟨d3, hd3, hall3⟩
            refine ⟨d3 ++ (d ++ [KVOp.list pfx 5 cur]), ?_, ?_⟩
            · rw [hd3, hd2]
              simp
            · intro op hop
              rcases List.mem_append.mp hop with hop3 | hop12
              · exact hweak op (hall3 _ hop3)
              · exact hopsOK op hop12
          · rw [if_neg hcomp]
            exact ⟨d ++ [KVOp.list pfx 5 cur], hd2, hopsOK⟩

theorem archiveLoop_log (cfg : Config) (p : ArchiveParams) (csvKey : String)
    (lc : Option String) :
    ∀ (ks : List String) (env : Env) (csv : String) (fuel pr : Nat),
      ∃ d, (sumEnvA (archiveLoop cfg p csvKey lc ks env csv fuel pr)).log = d ++ env.log ∧
        ∀ op ∈ d, (∃ k, k ∈ ks ∧ op = KVOp.get k) ∨ (∃ s, op = KVOp.put csvKey (Val.buf s)) := by
  intro ks
  induction ks with
  | nil => intro env csv fuel pr; exact ⟨[], rfl, by simp⟩
  | cons k ks ih =>
    intro env csv fuel pr
    simp only [archiveLoop]
    cases fuel with
    | zero =>
      refine ⟨[KVOp.put csvKey (Val.buf csv)], rfl, ?_⟩
      intro op hop
      have heq : op = KVOp.put csvKey (Val.buf csv) := by simpa using hop
      exact Or.inr ⟨csv, heq⟩
    | succ f =>
      have hstep : ∀ (csv2 : String) (pr2 : Nat),
          ∃ d, (sumEnvA (archiveLoop cfg p csvKey lc ks
              { kv := env.kv, sink := env.sink, log := KVOp.get k :: env.log } csv2 f pr2)).log =
            d ++ (KVOp.get k :: env.log) ∧
          ∀ op ∈ d, (∃ k', k' ∈ ks ∧ op = KVOp.get k') ∨ (∃ s, op = KVOp.put csvKey (Val.buf s)) :=
        fun csv2 pr2 => ih { kv := env.kv, sink := env.sink, log := KVOp.get k :: env.log } csv2 f pr2
      have hlift : ∀ (csv2 : String) (pr2 : Nat),
          ∃ d, (sumEnvA (archiveLoop cfg p csvKey lc ks
              { kv := env.kv, sink := env.sink, log := KVOp.get k :: env.log } csv2 f pr2)).log =
            d ++ env.log ∧
          ∀ op ∈ d, (∃ k', k' ∈ k :: ks ∧ op = KVOp.get k') ∨ (∃ s, op = KVOp.put csvKey (Val.buf s)) := by
        intro csv2 pr2
        rcases hstep csv2 pr2 with ⟨d, hd, hall⟩
        refine ⟨d ++ [KVOp.get k], ?_, ?_⟩
        · rw [hd]
          simp
        · intro op hop
          rcases List.mem_append.mp hop with hop1 | hop2
          · rcases hall op hop1 with ⟨k', hk', heq⟩ | hs
            · exact Or.inl ⟨k', List.mem_cons_of_mem _ hk', heq⟩
            · exact Or.inr hs
          · have heq : op = KVOp.get k := by simpa using hop2
            exact Or.inl ⟨k, List.mem_cons_self _ _, heq⟩
      rw [kvGet]
      rcases List.lookup k env.kv with _ | v
      · exact hlift csv pr
      · dsimp only
        rcases p.rowOf cfg k v with _ | row
        · exact hlift csv pr
        · exact hlift (csv ++ row) (pr + 1)

theorem countP_free (sk : String) (d : List KVOp) (hf : ∀ op ∈ d, opFreeOf sk op) :
    d.countP (fun op => op.isReadOf sk) = 0 ∧ d.countP (fun op => op.isWriteOf sk) = 0 := by
  constructor <;>
  · rw [List.countP_eq_zero]
    intro op hop
    have h := hf op hop
    rcases op with k | ⟨k, v⟩ | k | ⟨a, b, c⟩ <;>
      simp [KVOp.isReadOf, KVOp.isWriteOf, opFreeOf] at h ⊢ <;> exact h

theorem cleanOpOK_free {pfxs : List String} {sk : String}
    (hp : ∀ pfx ∈ pfxs, strPre pfx sk = false) :
    ∀ op, cleanOpOK pfxs op → opFreeOf sk op := by
  intro op h
  rcases op with k | ⟨k, v⟩ | k | ⟨a, b, c⟩
  · rcases h with ⟨pfx, hm, hpre⟩
    intro hk
    rw [hk] at hpre
    rw [hp pfx hm] at hpre
    exact absurd hpre (by simp)
  · exact h.elim
  · rcases h with ⟨pfx, hm, hpre⟩
    intro hk
    rw [hk] at hpre
    rw [hp pfx hm] at hpre
    exact absurd hpre (by simp)
  · trivial

theorem archOpOK_free {cfg : Config} {p : ArchiveParams} {sk : String}
    (hne : csvKeyP cfg p ≠ sk) (hpre : strPre (p.pfxOf cfg) sk = false) :
    ∀ op, archOpOK cfg p op → opFreeOf sk op := by
  intro op h
  rcases op with k | ⟨k, v⟩ | k | ⟨a, b, c⟩
  · rcases h with rfl | hpk
    · exact hne
    · intro hk
      rw [hk, hpre] at hpk
      exact absurd hpk (by simp)
  · rw [h]
    exact hne
  · rw [h]
    exact hne
  · trivial

theorem archiveStep_log (cfg : Config) (p : ArchiveParams) (env : Env) (st : MState)
    (fuel : Nat) :
    ∃ d, (archiveStep cfg p env st fuel).2.log = d ++ env.log ∧
      ∀ op ∈ d, archOpOK cfg p op := by
  rcases hpage : (afterCursor (keysWithPfx env.kv (p.pfxOf cfg)) st.cursor).take 20 with _ | ⟨k0, krest⟩
  · simp only [archiveStep, kvGet, kvList]
    simp only [hpage, List.isEmpty_nil]
    rw [if_pos trivial]
    by_cases hbuf : loadedCsv p (List.lookup (cfg.KEEP_PREFIX_MAINTENANCE ++ p.csvSuffix) env.kv) ≠ "" ∧
        p.threshold < (loadedCsv p (List.lookup (cfg.KEEP_PREFIX_MAINTENANCE ++ p.csvSuffix) env.kv)).length
    · rw [if_pos hbuf]
      refine ⟨[KVOp.del (cfg.KEEP_PREFIX_MAINTENANCE ++ p.csvSuffix),
        KVOp.list (p.pfxOf cfg) 20 st.cursor,
        KVOp.get (cfg.KEEP_PREFIX_MAINTENANCE ++ p.csvSuffix)], rfl, ?_⟩
      intro op hop
      simp only [List.mem_cons, List.not_mem_nil, or_false] at hop
      rcases hop with rfl | rfl | rfl
      · exact rfl
      · trivial
      · exact Or.inl rfl
    · rw [if_neg hbuf]
      refine ⟨[KVOp.list (p.pfxOf cfg) 20 st.cursor,
        KVOp.get (cfg.KEEP_PREFIX_MAINTENANCE ++ p.csvSuffix)], rfl, ?_⟩
      intro op hop
      simp only [List.mem_cons, List.not_mem_nil, or_false] at hop
      rcases hop with rfl | rfl
      · trivial
      · exact Or.inl rfl
  · have hkeys : ∀ k ∈ k0 :: krest, strPre (p.pfxOf cfg) k = true := by
      intro k hk
      apply kvList_keys_pre env (p.pfxOf cfg) 20 st.cursor
      show k ∈ (List.take 20 (afterCursor (keysWithPfx env.kv (p.pfxOf cfg)) st.cursor))
      rw [hpage]
      exact hk
    rcases lastOpt_cons_isSome k0 krest with ⟨b, hb⟩
    simp only [archiveStep, kvGet, kvList]
    simp only [hpage, List.isEmpty_cons, hb]
    rw [if_neg Bool.false_ne_true]
    rcases hloop : archiveLoop cfg p (cfg.KEEP_PREFIX_MAINTENANCE ++ p.csvSuffix) (some b)
        (k0 :: krest)
        { kv := env.kv, sink := env.sink,
          log := KVOp.list (p.pfxOf cfg) 20 st.cursor ::
            (KVOp.get (cfg.KEEP_PREFIX_MAINTENANCE ++ p.csvSuffix) :: env.log) }
        (loadedCsv p (List.lookup (cfg.KEEP_PREFIX_MAINTENANCE ++ p.csvSuffix) env.kv))
        fuel 0 with ⟨r, envL⟩ | ⟨envL, csv, pr⟩ <;>
      rcases archiveLoop_log cfg p (cfg.KEEP_PREFIX_MAINTENANCE ++ p.csvSuffix) (some b)
        (k0 :: krest)
        { kv := env.kv, sink := env.sink,
          log := KVOp.list (p.pfxOf cfg) 20 st.cursor ::
            (KVOp.get (cfg.KEEP_PREFIX_MAINTENANCE ++ p.csvSuffix) :: env.log) }
        (loadedCsv p (List.lookup (cfg.KEEP_PREFIX_MAINTENANCE ++ p.csvSuffix) env.kv))
        fuel 0 with ⟨dL, hdL, hallL⟩ <;>
      rw [hloop] at hdL <;>
      dsimp only [sumEnvA] at hdL <;>
      dsimp only
    · -- early return mid-page
      refine ⟨dL ++ [KVOp.list (p.pfxOf cfg) 20 st.cursor,
        KVOp.get (cfg.KEEP_PREFIX_MAINTENANCE ++ p.csvSuffix)], ?_, ?_⟩
      · rw [hdL]
        simp
      · intro op hop
        rcases List.mem_append.mp hop with hop1 | hop2
        · rcases hallL op hop1 with ⟨k, hk, rfl⟩ | ⟨s, rfl⟩
          · exact Or.inr (hkeys k hk)
          · exact rfl
        · simp only [List.mem_cons, List.not_mem_nil, or_false] at hop2
          rcases hop2 with rfl | rfl
          · trivial
          · exact Or.inl rfl
    · -- loop finished the page
      by_cases hcomp : decide ((afterCursor (keysWithPfx env.kv (p.pfxOf cfg)) st.cursor).length ≤ 20) = true
      · rw [if_pos hcomp]
        refine ⟨KVOp.del (cfg.KEEP_PREFIX_MAINTENANCE ++ p.csvSuffix) ::
          KVOp.put (cfg.KEEP_PREFIX_MAINTENANCE ++ p.csvSuffix) (Val.buf csv) ::
          (dL ++ [KVOp.list (p.pfxOf cfg) 20 st.cursor,
            KVOp.get (cfg.KEEP_PREFIX_MAINTENANCE ++ p.csvSuffix)]), ?_, ?_⟩
        · show KVOp.del _ :: (kvPut envL _ _).log = _
          rw [kvPut]
          show KVOp.del _ :: KVOp.put _ _ :: envL.log = _
          rw [hdL]
          simp
        · intro op hop
          simp only [List.mem_cons] at hop
          rcases hop with rfl | rfl | hop2
          · exact rfl
          · exact rfl
          · rcases List.mem_append.mp hop2 with hop1 | hop3
            · rcases hallL op hop1 with ⟨k, hk, rfl⟩ | ⟨s, rfl⟩
              · exact Or.inr (hkeys k hk)
              · exact rfl
            · simp only [List.mem_cons, List.not_mem_nil, or_false] at hop3
              rcases hop3 with rfl | rfl
              · trivial
              · exact Or.inl rfl
      · rw [if_neg hcomp]
        refine ⟨KVOp.put (cfg.KEEP_PREFIX_MAINTENANCE ++ p.csvSuffix) (Val.buf csv) ::
          (dL ++ [KVOp.list (p.pfxOf cfg) 20 st.cursor,
            KVOp.get (cfg.KEEP_PREFIX_MAINTENANCE ++ p.csvSuffix)]), ?_, ?_⟩
        · show (kvPut envL _ _).log = _
          rw [kvPut]
          show KVOp.put _ _ :: envL.log = _
          rw [hdL]
          simp
        · intro op hop
          simp only [List.mem_cons] at hop
          rcases hop with rfl | hop2
          · exact rfl
          · rcases List.mem_append.mp hop2 with hop1 | hop3
            · rcases hallL op hop1 with ⟨k, hk, rfl⟩ | ⟨s, rfl⟩
              · exact Or.inr (hkeys k hk)
              · exact rfl
            · simp only [List.mem_cons, List.not_mem_nil, or_false] at hop3
              rcases hop3 with rfl | rfl
              · trivial
              · exact Or.inl rfl

theorem counts_put_get (sk : String) (v : Val) (dh : List KVOp)
    (hf : ∀ op ∈ dh, opFreeOf sk op) :
    (KVOp.put sk v :: (dh ++ [KVOp.get sk])).countP (fun op => op.isReadOf sk) = 1 ∧
    (KVOp.put sk v :: (dh ++ [KVOp.get sk])).countP (fun op => op.isWriteOf sk) ≤ 1 := by
  rcases countP_free sk dh hf with ⟨hr, hw⟩
  constructor
  · simp only [List.countP_cons, List.countP_append, List.countP_nil, hr]
    simp [KVOp.isReadOf]
  · simp only [List.countP_cons, List.countP_append, List.countP_nil, hw]
    simp [KVOp.isWriteOf]

theorem run_branch_counts (sk : String) (v : Val) (X : Env) (dh base : List KVOp)
    (hX : X.log = dh ++ (KVOp.get sk :: base))
    (hf : ∀ op ∈ dh, opFreeOf sk op) :
    ∃ d, (kvPut X sk v).log = d ++ base ∧
      d.countP (fun op => op.isReadOf sk) = 1 ∧
      d.countP (fun op => op.isWriteOf sk) ≤ 1 := by
  refine ⟨KVOp.put sk v :: (dh ++ [KVOp.get sk]), ?_, counts_put_get sk v dh hf⟩
  show KVOp.put sk v :: X.log = _
  rw [hX]
  simp

theorem run_branch_counts_done (sk lk : String) (v : Val) (X : Env) (dh base : List KVOp)
    (hX : X.log = dh ++ (KVOp.get sk :: base))
    (hf : ∀ op ∈ dh, opFreeOf sk op) (hne : lk ≠ sk) :
    ∃ d, (kvPut (kvDelete X sk) lk v).log = d ++ base ∧
      d.countP (fun op => op.isReadOf sk) = 1 ∧
      d.countP (fun op => op.isWriteOf sk) ≤ 1 := by
  rcases countP_free sk dh hf with ⟨hr, hw⟩
  have hlk : (lk == sk) = false := beq_eq_false_iff_ne.mpr hne
  refine ⟨KVOp.put lk v :: KVOp.del sk :: (dh ++ [KVOp.get sk]), ?_, ?_, ?_⟩
  · show KVOp.put lk v :: KVOp.del sk :: X.log = _
    rw [hX]
    simp
  · simp only [List.countP_cons, List.countP_append, List.countP_nil, hr]
    simp [KVOp.isReadOf]
  · simp only [List.countP_cons, List.countP_append, List.countP_nil, hw]
    simp [KVOp.isWriteOf, hlk]

theorem run_branch_counts_throw (sk : String) (env : Env) :
    ∃ d, ({ env with log := KVOp.get sk :: env.log } : Env).log = d ++ env.log ∧
      d.countP (fun op => op.isReadOf sk) = 1 ∧
      d.countP (fun op => op.isWriteOf sk) ≤ 1 := by
  refine ⟨[KVOp.get sk], rfl, ?_, ?_⟩
  · simp [List.countP_cons, KVOp.isReadOf]
  · simp [List.countP_cons, KVOp.isWriteOf]

/-- C7 auxiliary: ops of the cleanup handler avoid the checkpoint key. -/
theorem cleanup_free (cfg : Config) (dh : List KVOp)
    (hall : ∀ op ∈ dh, cleanOpOK ((cleanPartitions cfg).map Prod.fst) op)
    (hR : strPre cfg.PREFIX_RATELIMIT (stateKeyOf cfg) = false)
    (hB : strPre cfg.PREFIX_BOT_DETECT (stateKeyOf cfg) = false)
    (hC : strPre cfg.PREFIX_CAPTCHA (stateKeyOf cfg) = false) :
    ∀ op ∈ dh, opFreeOf (stateKeyOf cfg) op := by
  intro op hop
  apply cleanOpOK_free ?_ op (hall op hop)
  intro pfx hm
  simp only [cleanPartitions, List.map_cons, List.map_nil, List.mem_cons,
    List.not_mem_nil, or_false] at hm
  rcases hm with rfl | rfl | rfl
  · exact hR
  · exact hB
  · exact hC

/-- C7: provided no data-partition prefix is a prefix of the checkpoint
key (the configured layout), every invocation of the maintenance step
performs exactly one read of the persisted checkpoint record and at most
one write to it: one put when the cycle continues (or the phase is
unknown), one delete (plus a put of the distinct CompletionRecord key)
when the final phase completes, and no write at all when the invocation
aborts on a malformed checkpoint. -/
theorem claim_C7 (cfg : Config) (env : Env) (fuel : Nat)
    (hR : strPre cfg.PREFIX_RATELIMIT (stateKeyOf cfg) = false)
    (hB : strPre cfg.PREFIX_BOT_DETECT (stateKeyOf cfg) = false)
    (hC : strPre cfg.PREFIX_CAPTCHA (stateKeyOf cfg) = false)
    (hS : strPre cfg.PREFIX_SUBSCRIBER (stateKeyOf cfg) = false)
    (hT : strPre cfg.PREFIX_CONTACT (stateKeyOf cfg) = false) :
    ∃ d, (runIncrementalMaintenance env cfg fuel).2.log = d ++ env.log ∧
      d.countP (fun op => op.isReadOf (stateKeyOf cfg)) = 1 ∧
      d.countP (fun op => op.isWriteOf (stateKeyOf cfg)) ≤ 1 := by
  have hsubfree : ∀ dh : List KVOp, (∀ op ∈ dh, archOpOK cfg subParams op) →
      ∀ op ∈ dh, opFreeOf (stateKeyOf cfg) op := by
    intro dh hall op hop
    exact @archOpOK_free cfg subParams (stateKeyOf cfg) (subCsvKey_ne_stateKey cfg) hS op (hall op hop)
  have hconfree : ∀ dh : List KVOp, (∀ op ∈ dh, archOpOK cfg conParams op) →
      ∀ op ∈ dh, opFreeOf (stateKeyOf cfg) op := by
    intro dh hall op hop
    exact @archOpOK_free cfg conParams (stateKeyOf cfg) (conCsvKey_ne_stateKey cfg) hT op (hall op hop)
  rcases hv : List.lookup (stateKeyOf cfg) env.kv with _ | v
  · rw [run_eq_fresh env cfg fuel hv]
    dsimp only
    rcases cleanupParts_log cfg none (cleanPartitions cfg)
      { env with log := KVOp.get (stateKeyOf cfg) :: env.log } fuel 0 with ⟨dh, hdh, hall⟩
    exact run_branch_counts (stateKeyOf cfg) _ _ dh env.log hdh
      (cleanup_free cfg dh hall hR hB hC)
  · rcases v with s | ⟨ts, cA⟩ | ⟨ip, ts⟩ | ⟨e, nm, ph, ms, sb, ip, ts⟩ | ⟨p, c, n, sa⟩ | ⟨ca, tp⟩
    · by_cases hs : s = ""
      · subst hs
        rw [run_eq_bufEmpty env cfg fuel hv]
        dsimp only
        rcases cleanupParts_log cfg none (cleanPartitions cfg)
          { env with log := KVOp.get (stateKeyOf cfg) :: env.log } fuel 0 with ⟨dh, hdh, hall⟩
        exact run_branch_counts (stateKeyOf cfg) _ _ dh env.log hdh
          (cleanup_free cfg dh hall hR hB hC)
      · rw [run_eq_throw env cfg fuel _ hv (by simp [loadState, hs])]
        exact run_branch_counts_throw (stateKeyOf cfg) env
    · rw [run_eq_throw env cfg fuel _ hv (by simp [loadState])]
      exact run_branch_counts_throw (stateKeyOf cfg) env
    · rw [run_eq_throw env cfg fuel _ hv (by simp [loadState])]
      exact run_branch_counts_throw (stateKeyOf cfg) env
    · rw [run_eq_throw env cfg fuel _ hv (by simp [loadState])]
      exact run_branch_counts_throw (stateKeyOf cfg) env
    · by_cases h1 : p = phCleanup
      · subst h1
        rw [run_eq_cleanup env cfg fuel c n sa hv]
        dsimp only
        rcases cleanupParts_log cfg c (cleanPartitions cfg)
          { env with log := KVOp.get (stateKeyOf cfg) :: env.log } fuel 0 with ⟨dh, hdh, hall⟩
        exact run_branch_counts (stateKeyOf cfg) _ _ dh env.log hdh
          (cleanup_free cfg dh hall hR hB hC)
      · by_cases h2 : p = phSubs
        · subst h2
          rw [run_eq_subs env cfg fuel c n sa hv]
          dsimp only
          rcases archiveStep_log cfg subParams
            { env with log := KVOp.get (stateKeyOf cfg) :: env.log }
            { phase := phSubs, cursor := c, processed := n, startedAt := sa } fuel with ⟨dh, hdh, hall⟩
          exact run_branch_counts (stateKeyOf cfg) _ _ dh env.log hdh (hsubfree dh hall)
        · by_cases h3 : p = phContacts
          · subst h3
            rw [run_eq_contacts env cfg fuel c n sa hv]
            dsimp only
            rcases archiveStep_log cfg conParams
              { env with log := KVOp.get (stateKeyOf cfg) :: env.log }
              { phase := phContacts, cursor := c, processed := n, startedAt := sa } fuel with ⟨dh, hdh, hall⟩
            split
            · exact run_branch_counts_done (stateKeyOf cfg) (lastCompleteKeyOf cfg) _ _ dh env.log
                hdh (hconfree dh hall) (fun hk => stateKey_ne_lastComplete cfg hk.symm)
            · exact run_branch_counts (stateKeyOf cfg) _ _ dh env.log hdh (hconfree dh hall)
          · rw [run_eq_unknown env cfg fuel p c n sa hv h1 h2 h3]
            exact run_branch_counts (stateKeyOf cfg) _ _ [] env.log rfl (by simp)
    · rw [run_eq_throw env cfg fuel _ hv (by simp [loadState])]
      exact run_branch_counts_throw (stateKeyOf cfg) env

theorem claim_C7_witness :
    ∃ d, (runIncrementalMaintenance envW6a cfgM 9).2.log = d ++ envW6a.log ∧
      d.countP (fun op => op.isReadOf (stateKeyOf cfgM)) = 1 ∧
      d.countP (fun op => op.isWriteOf (stateKeyOf cfgM)) ≤ 1 :=
  claim_C7 cfgM envW6a 9 (by decide) (by decide) (by decide) (by decide) (by decide)

theorem lookup_some_mem {kv : List (String × Val)} {k : String} {v : Val}
    (h : List.lookup k kv = some v) : k ∈ kv.map Prod.fst := by
  induction kv with
  | nil => exact absurd h (by simp)
  | cons q t ih =>
    obtain ⟨a, b⟩ := q
    by_cases hk : k = a
    · subst hk
      exact List.mem_cons_self _ _
    · rw [lookup_cons_ne b t hk] at h
      exact List.mem_cons_of_mem _ (ih h)

theorem mem_keysWithPfx {kv : List (String × Val)} {pfx k : String} :
    k ∈ keysWithPfx kv pfx ↔ k ∈ kv.map Prod.fst ∧ strPre pfx k = true := by
  unfold keysWithPfx
  rw [mem_sortStr, List.mem_filter]

theorem kvErase_keys_subset {kv : List (String × Val)} {k0 k : String}
    (h : k ∈ (kvErase kv k0).map Prod.fst) : k ∈ kv.map Prod.fst := by
  induction kv with
  | nil => exact absurd h (by simp [kvErase])
  | cons q t ih =>
    rw [kvErase] at h
    by_cases hq : q.1 = k0
    · rw [if_pos hq] at h
      exact List.mem_cons_of_mem _ (ih h)
    · rw [if_neg hq] at h
      rcases List.mem_cons.mp h with rfl | h2
      · exact List.mem_cons_self _ _
      · exact List.mem_cons_of_mem _ (ih h2)

theorem cleanupKey_kv_cases (env : Env) (cfg : Config) (maxAge : Int) (k : String) :
    (cleanupKey env cfg maxAge k).1.kv = env.kv ∨
    (cleanupKey env cfg maxAge k).1.kv = kvErase env.kv k := by
  unfold cleanupKey kvGet
  rcases List.lookup k env.kv with _ | v
  · exact Or.inl rfl
  · dsimp only
    rcases effTimestamp v with _ | t
    · exact Or.inl rfl
    · dsimp only
      by_cases hexp : maxAge < cfg.now - t
      · rw [if_pos hexp]
        exact Or.inr rfl
      · rw [if_neg hexp]
        exact Or.inl rfl

theorem cleanupKey_other (env : Env) (cfg : Config) (maxAge : Int) {k k' : String}
    (h : k' ≠ k) :
    List.lookup k' (cleanupKey env cfg maxAge k).1.kv = List.lookup k' env.kv := by
  rcases cleanupKey_kv_cases env cfg maxAge k with hc | hc
  · rw [hc]
  · rw [hc, lookup_kvErase_ne _ h]

theorem cleanupKey_kills (env : Env) (cfg : Config) (maxAge : Int) (k : String)
    (v : Val) (t : Int) (hv : List.lookup k env.kv = some v)
    (ht : effTimestamp v = some t) (hexp : maxAge < cfg.now - t) :
    List.lookup k (cleanupKey env cfg maxAge k).1.kv = none := by
  unfold cleanupKey kvGet
  rw [hv]
  dsimp only
  rw [ht]
  dsimp only
  rw [if_pos hexp]
  exact lookup_kvDelete_self _ _

theorem cleanupKeys_inl_false (cfg : Config) (maxAge : Int) (lc : Option String) :
    ∀ (ks : List String) (env : Env) (fuel pr : Nat) (r : StepRes) (env' : Env),
      cleanupKeys cfg maxAge lc ks env fuel pr = Sum.inl (r, env') →
      r.complete = false := by
  intro ks
  induction ks with
  | nil =>
    intro env fuel pr r env' h
    simp only [cleanupKeys] at h
    exact absurd h (by simp)
  | cons k ks ih =>
    intro env fuel pr r env' h
    simp only [cleanupKeys] at h
    cases fuel with
    | zero =>
      injection h with h
      injection h with h1 h2
      rw [← h1]
    | succ f =>
      rcases hck : cleanupKey env cfg maxAge k with ⟨env1, dcnt⟩
      rw [hck] at h
      exact ih env1 f (pr + dcnt) r env' h

theorem cleanupKeys_kv (cfg : Config) (maxAge : Int) (lc : Option String) :
    ∀ (ks : List String) (env : Env) (fuel pr : Nat) (env' : Env) (f2 pr2 : Nat),
      cleanupKeys cfg maxAge lc ks env fuel pr = Sum.inr (env', f2, pr2) →
      (∀ k v t, k ∈ ks → List.lookup k env.kv = some v → effTimestamp v = some t →
        maxAge < cfg.now - t → List.lookup k env'.kv = none) ∧
      (∀ k', k' ∉ ks → List.lookup k' env'.kv = List.lookup k' env.kv) ∧
      (∀ k', List.lookup k' env'.kv = List.lookup k' env.kv ∨ List.lookup k' env'.kv = none) ∧
      (∀ k', k' ∈ env'.kv.map Prod.fst → k' ∈ env.kv.map Prod.fst) := by
  intro ks
  induction ks with
  | nil =>
    intro env fuel pr env' f2 pr2 h
    simp only [cleanupKeys] at h
    injection h with h
    injection h with h1 h2
    subst h1
    exact ⟨fun k v t hk => absurd hk (by simp), fun k' _ => rfl, fun k' => Or.inl rfl, fun k' h => h⟩
  | cons k ks ih =>
    intro env fuel pr env' f2 pr2 h
    simp only [cleanupKeys] at h
    cases fuel with
    | zero => exact absurd h (by simp)
    | succ f =>
      rcases hck : cleanupKey env cfg maxAge k with ⟨env1, dcnt⟩
      rw [hck] at h
      rcases ih env1 f (pr + dcnt) env' f2 pr2 h with ⟨ih1, ih2, ih3, ih4⟩
      have henv1 : env1 = (cleanupKey env cfg maxAge k).1 := by rw [hck]
      have hcases : env1.kv = env.kv ∨ env1.kv = kvErase env.kv k := by
        rw [henv1]
        exact cleanupKey_kv_cases env cfg maxAge k
      refine ⟨?_, ?_, ?_, ?_⟩
      · intro k0 v t hk0 hv ht hexp
        rcases List.mem_cons.mp hk0 with rfl | hk0r
        · -- the head key: killed by its own visit, then never reinstated
          have hdead : List.lookup k0 env1.kv = none := by
            rw [henv1]
            exact cleanupKey_kills env cfg maxAge k0 v t hv ht hexp
          rcases ih3 k0 with h3 | h3
          · rw [h3, hdead]
          · exact h3
        · by_cases hkk : k0 = k
          · subst hkk
            have hdead : List.lookup k0 env1.kv = none := by
              rw [henv1]
              exact cleanupKey_kills env cfg maxAge k0 v t hv ht hexp
            rcases ih3 k0 with h3 | h3
            · rw [h3, hdead]
            · exact h3
          · apply ih1 k0 v t hk0r _ ht hexp
            rw [henv1, cleanupKey_other env cfg maxAge hkk]
            exact hv
      · intro k' hk'
        have hne : k' ≠ k := fun he => hk' (he ▸ List.mem_cons_self k ks)
        have hnr : k' ∉ ks := fun hm => hk' (List.mem_cons_of_mem _ hm)
        rw [ih2 k' hnr, henv1, cleanupKey_other env cfg maxAge hne]
      · intro k'
        rcases ih3 k' with h3 | h3
        · rcases hcases with hc | hc
          · rw [h3, hc]
            exact Or.inl rfl
          · rw [h3, hc]
            by_cases hkk : k' = k
            · subst hkk
              exact Or.inr (lookup_kvErase_self _ _)
            · exact Or.inl (lookup_kvErase_ne _ hkk)
        · exact Or.inr h3
      · intro k' hk'
        have h4 := ih4 k' hk'
        rcases hcases with hc | hc
        · rw [hc] at h4
          exact h4
        · rw [hc] at h4
          exact kvErase_keys_subset h4

theorem kvList_none_complete_keys (env : Env) (pfx : String) (n : Nat)
    (lst : ListRes) (env1 : Env)
    (hl : kvList env pfx n none = (lst, env1)) (hc : lst.list_complete = true) :
    lst.keys = keysWithPfx env.kv pfx := by
  simp only [kvList, afterCursor] at hl
  injection hl with hlst henv
  subst hlst
  dsimp only at hc ⊢
  exact List.take_of_length_le (of_decide_eq_true hc)

theorem kvList_none_empty_keys (env : Env) (pfx : String) (lst : ListRes) (env1 : Env)
    (hl : kvList env pfx 5 none = (lst, env1)) (he : lst.keys.isEmpty = true) :
    keysWithPfx env.kv pfx = [] := by
  simp only [kvList, afterCursor] at hl
  injection hl with hlst henv
  subst hlst
  dsimp only at he
  cases hks : keysWithPfx env.kv pfx with
  | nil => rfl
  | cons a t =>
    rw [hks] at he
    have ht5 : List.take 5 (a :: t) = a :: List.take 4 t := rfl
    rw [ht5] at he
    simp at he

theorem cleanupKeys_out_mono (cfg : Config) (maxAge : Int) (lc : Option String) :
    ∀ (ks : List String) (env : Env) (fuel pr : Nat) (e' : Env),
      ((∃ r, cleanupKeys cfg maxAge lc ks env fuel pr = Sum.inl (r, e')) ∨
        (∃ f2 pr2, cleanupKeys cfg maxAge lc ks env fuel pr = Sum.inr (e', f2, pr2))) →
      (∀ k', List.lookup k' e'.kv = List.lookup k' env.kv ∨ List.lookup k' e'.kv = none) ∧
      (∀ k', k' ∈ e'.kv.map Prod.fst → k' ∈ env.kv.map Prod.fst) := by
  intro ks
  induction ks with
  | nil =>
    intro env fuel pr e' h
    rcases h with ⟨r, h⟩ | ⟨f2, pr2, h⟩ <;> simp only [cleanupKeys] at h
    · exact absurd h (by simp)
    · injection h with h
      injection h with h1 h2
      subst h1
      exact ⟨fun k' => Or.inl rfl, fun k' hk => hk⟩
  | cons k ks ih =>
    intro env fuel pr e' h
    cases fuel with
    | zero =>
      rcases h with ⟨r, h⟩ | ⟨f2, pr2, h⟩ <;> simp only [cleanupKeys] at h
      · injection h with h
        injection h with h1 h2
        subst h2
        exact ⟨fun k' => Or.inl rfl, fun k' hk => hk⟩
      · exact absurd h (by simp)
    | succ f =>
      rcases hck : cleanupKey env cfg maxAge k with ⟨env1, d⟩
      have henv1 : env1 = (cleanupKey env cfg maxAge k).1 := by rw [hck]
      have hcases : env1.kv = env.kv ∨ env1.kv = kvErase env.kv k := by
        rw [henv1]
        exact cleanupKey_kv_cases env cfg maxAge k
      have hm1 : ∀ k', List.lookup k' env1.kv = List.lookup k' env.kv ∨
          List.lookup k' env1.kv = none := by
        intro k'
        rcases hcases with hcs | hcs
        · rw [hcs]
          exact Or.inl rfl
        · rw [hcs]
          by_cases hkk : k' = k
          · subst hkk
            exact Or.inr (lookup_kvErase_self _ _)
          · exact Or.inl (lookup_kvErase_ne _ hkk)
      have hm2 : ∀ k', k' ∈ env1.kv.map Prod.fst → k' ∈ env.kv.map Prod.fst := by
        intro k' hk'
        rcases hcases with hcs | hcs
        · rw [hcs] at hk'
          exact hk'
        · rw [hcs] at hk'
          exact kvErase_keys_subset hk'
      have hrec : ((∃ r, cleanupKeys cfg maxAge lc ks env1 f (pr + d) = Sum.inl (r, e')) ∨
          (∃ f2 pr2, cleanupKeys cfg maxAge lc ks env1 f (pr + d) = Sum.inr (e', f2, pr2))) := by
        rcases h with ⟨r, h⟩ | ⟨f2, pr2, h⟩ <;> simp only [cleanupKeys] at h <;> rw [hck] at h
        · exact Or.inl ⟨r, h⟩
        · exact Or.inr ⟨f2, pr2, h⟩
      rcases ih env1 f (pr + d) e' hrec with ⟨n1, n2⟩
      constructor
      · intro k'
        rcases n1 k' with hn | hn
        · rcases hm1 k' with hm | hm
          · rw [hn, hm]
            exact Or.inl rfl
          · rw [hn, hm]
            exact Or.inr rfl
        · exact Or.inr hn
      · intro k' hk'
        exact hm2 k' (n2 k' hk')

theorem cleanupParts_mono (cfg : Config) (cur : Option String) :
    ∀ (parts : List (String × Int)) (env : Env) (fuel pr : Nat),
      (∀ k', List.lookup k' (cleanupParts cfg cur parts env fuel pr).2.kv =
          List.lookup k' env.kv ∨
        List.lookup k' (cleanupParts cfg cur parts env fuel pr).2.kv = none) ∧
      (∀ k', k' ∈ (cleanupParts cfg cur parts env fuel pr).2.kv.map Prod.fst →
        k' ∈ env.kv.map Prod.fst) := by
  intro parts
  induction parts with
  | nil =>
    intro env fuel pr
    exact ⟨fun k' => Or.inl rfl, fun k' hk => hk⟩
  | cons q rest ih =>
    obtain ⟨pfx, maxAge⟩ := q
    intro env fuel pr
    cases fuel with
    | zero => exact ⟨fun k' => Or.inl rfl, fun k' hk => hk⟩
    | succ f =>
      rcases hl : kvList env pfx 5 cur with ⟨lst, env1⟩
      have h1 : env1.kv = env.kv := by
        have h2 : (kvList env pfx 5 cur).2 = env1 := by rw [hl]
        rw [← h2]
        simp only [kvList]
      simp only [cleanupParts]
      rw [hl]
      dsimp only
      by_cases he : lst.keys.isEmpty
      · rw [if_pos he]
        rcases ih env1 f pr with ⟨m1, m2⟩
        constructor
        · intro k'
          rcases m1 k' with hm | hm
          · rw [hm, h1]
            exact Or.inl rfl
          · exact Or.inr hm
        · intro k' hk'
          have h3 := m2 k' hk'
          rw [h1] at h3
          exact h3
      · rw [if_neg he]
        rcases hck : cleanupKeys cfg maxAge lst.cursor lst.keys env1 f pr with ⟨r0, e0⟩ | ⟨env2, f2, pr2⟩
        · dsimp only
          rcases cleanupKeys_out_mono cfg maxAge lst.cursor lst.keys env1 f pr e0
              (Or.inl ⟨r0, hck⟩) with ⟨m1, m2⟩
          constructor
          · intro k'
            rcases m1 k' with hm | hm
            · rw [hm, h1]
              exact Or.inl rfl
            · exact Or.inr hm
          · intro k' hk'
            have h3 := m2 k' hk'
            rw [h1] at h3
            exact h3
        · dsimp only
          rcases cleanupKeys_out_mono cfg maxAge lst.cursor lst.keys env1 f pr env2
              (Or.inr ⟨f2, pr2, hck⟩) with ⟨m1, m2⟩
          by_cases hlc : lst.list_complete
          · rw [if_pos hlc]
            rcases ih env2 f2 pr2 with ⟨n1, n2⟩
            constructor
            · intro k'
              rcases n1 k' with hn | hn
              · rcases m1 k' with hm | hm
                · rw [hn, hm, h1]
                  exact Or.inl rfl
                · rw [hn, hm]
                  exact Or.inr rfl
              · exact Or.inr hn
            · intro k' hk'
              have h3 := m2 k' (n2 k' hk')
              rw [h1] at h3
              exact h3
          · rw [if_neg hlc]
            constructor
            · intro k'
              rcases m1 k' with hm | hm
              · rw [hm, h1]
                exact Or.inl rfl
              · exact Or.inr hm
            · intro k' hk'
              have h3 := m2 k' hk'
              rw [h1] at h3
              exact h3

theorem cleanupParts_none_correct (cfg : Config) :
    ∀ (parts : List (String × Int)) (env : Env) (fuel pr : Nat) (r : StepRes) (env' : Env),
      cleanupParts cfg none parts env fuel pr = (r, env') →
      r.complete = true →
      (∀ k q1 q2, k ∈ env.kv.map Prod.fst → q1 ∈ parts → q2 ∈ parts →
        strPre q1.1 k = true → strPre q2.1 k = true → q1 = q2) →
      ∀ pfx maxAge k v t, (pfx, maxAge) ∈ parts → strPre pfx k = true →
        List.lookup k env.kv = some v → effTimestamp v = some t →
        maxAge < cfg.now - t →
        List.lookup k env'.kv = none := by
  intro parts
  induction parts with
  | nil =>
    intro env fuel pr r env' h hc hsep pfx maxAge k v t hmem
    exact absurd hmem (by simp)
  | cons q rest ih =>
    obtain ⟨p0, a0⟩ := q
    intro env fuel pr r env' h hc hsep pfx maxAge k v t hmem hpre hv ht hexp
    cases fuel with
    | zero =>
      simp only [cleanupParts] at h
      injection h with h1 h2
      rw [← h1] at hc
      simp at hc
    | succ f =>
      rcases hl : kvList env p0 5 none with ⟨lst, env1⟩
      have h1 : env1.kv = env.kv := by
        have h2 : (kvList env p0 5 none).2 = env1 := by rw [hl]
        rw [← h2]
        simp only [kvList]
      simp only [cleanupParts] at h
      rw [hl] at h
      dsimp only at h
      by_cases he : lst.keys.isEmpty
      · rw [if_pos he] at h
        rcases List.mem_cons.mp hmem with heq | hmemr
        · injection heq with he1 he2
          subst he1
          have hk : k ∈ keysWithPfx env.kv pfx :=
            mem_keysWithPfx.mpr ⟨lookup_some_mem hv, hpre⟩
          rw [kvList_none_empty_keys env pfx lst env1 hl he] at hk
          exact absurd hk (by simp)
        · have hsep2 : ∀ k0 q1 q2, k0 ∈ env1.kv.map Prod.fst → q1 ∈ rest → q2 ∈ rest →
              strPre q1.1 k0 = true → strPre q2.1 k0 = true → q1 = q2 := by
            intro k0 q1 q2 hk0 hq1 hq2 hp1 hp2
            rw [h1] at hk0
            exact hsep k0 q1 q2 hk0 (List.mem_cons_of_mem _ hq1)
              (List.mem_cons_of_mem _ hq2) hp1 hp2
          have hv1 : List.lookup k env1.kv = some v := by
            rw [h1]
            exact hv
          exact ih env1 f pr r env' h hc hsep2 pfx maxAge k v t hmemr hpre hv1 ht hexp
      · rw [if_neg he] at h
        rcases hck : cleanupKeys cfg a0 lst.cursor lst.keys env1 f pr with ⟨r0, e0⟩ | ⟨env2, f2, pr2⟩
        · rw [hck] at h
          dsimp only at h
          injection h with hr he0
          have hf := cleanupKeys_inl_false cfg a0 lst.cursor lst.keys env1 f pr r0 e0 hck
          rw [hr, hc] at hf
          exact absurd hf (by decide)
        · rw [hck] at h
          dsimp only at h
          by_cases hlc : lst.list_complete
          · rw [if_pos hlc] at h
            rcases cleanupKeys_kv cfg a0 lst.cursor lst.keys env1 f pr env2 f2 pr2 hck
              with ⟨ck1, ck2, ck3, ck4⟩
            have hkeys : lst.keys = keysWithPfx env.kv p0 :=
              kvList_none_complete_keys env p0 5 lst env1 hl hlc
            rcases List.mem_cons.mp hmem with heq | hmemr
            · injection heq with he1 he2
              subst he1
              subst he2
              have hk : k ∈ lst.keys := by
                rw [hkeys]
                exact mem_keysWithPfx.mpr ⟨lookup_some_mem hv, hpre⟩
              have hv1 : List.lookup k env1.kv = some v := by
                rw [h1]
                exact hv
              have hdead : List.lookup k env2.kv = none := ck1 k v t hk hv1 ht hexp
              have hmono := (cleanupParts_mono cfg none rest env2 f2 pr2).1 k
              rw [h] at hmono
              rcases hmono with hm | hm
              · rw [hm]
                exact hdead
              · exact hm
            · by_cases hkpage : k ∈ lst.keys
              · have hp0 : strPre p0 k = true := by
                  rw [hkeys] at hkpage
                  exact (mem_keysWithPfx.mp hkpage).2
                have hpair : ((p0 : String), (a0 : Int)) = (pfx, maxAge) :=
                  hsep k (p0, a0) (pfx, maxAge) (lookup_some_mem hv)
                    (List.mem_cons_self _ _) (List.mem_cons_of_mem _ hmemr) hp0 hpre
                injection hpair with hp1 hp2
                have hv1 : List.lookup k env1.kv = some v := by
                  rw [h1]
                  exact hv
                have hexp0 : a0 < cfg.now - t := by
                  rw [hp2]
                  exact hexp
                have hdead : List.lookup k env2.kv = none := ck1 k v t hkpage hv1 ht hexp0
                have hmono := (cleanupParts_mono cfg none rest env2 f2 pr2).1 k
                rw [h] at hmono
                rcases hmono with hm | hm
                · rw [hm]
                  exact hdead
                · exact hm
              · have hv2 : List.lookup k env2.kv = some v := by
                  rw [ck2 k hkpage, h1]
                  exact hv
                have hsep2 : ∀ k0 q1 q2, k0 ∈ env2.kv.map Prod.fst → q1 ∈ rest → q2 ∈ rest →
                    strPre q1.1 k0 = true → strPre q2.1 k0 = true → q1 = q2 := by
                  intro k0 q1 q2 hk0 hq1 hq2 hpq1 hpq2
                  have hk0e : k0 ∈ env.kv.map Prod.fst := by
                    have h3 := ck4 k0 hk0
                    rw [h1] at h3
                    exact h3
                  exact hsep k0 q1 q2 hk0e (List.mem_cons_of_mem _ hq1)
                    (List.mem_cons_of_mem _ hq2) hpq1 hpq2
                exact ih env2 f2 pr2 r env' h hc hsep2 pfx maxAge k v t hmemr hpre hv2 ht hexp
          · rw [if_neg hlc] at h
            injection h with hr he'
            rw [← hr] at hc
            simp at hc


/-- C3 (amended): starting a fresh scan (checkpoint cursor null), if no key of
the store carries the prefixes of two distinct configured partitions, then a
`complete = true` return of the cleanup handler means every partition's
enumeration was really exhausted: every stored record of every partition whose
effective timestamp is older than that partition's maxAge has been deleted.
(The original claim, quantified over every cursor input, is refuted by
`claim_C3_counterexample`: a cursor inherited from one partition is applied to
every later partition's listing and silently skips their records.) -/
theorem claim_C3 (cfg : Config) (env : Env) (st : MState) (fuel : Nat)
    (hcur : st.cursor = none)
    (hsep : ∀ q1 ∈ cleanPartitions cfg, ∀ q2 ∈ cleanPartitions cfg,
      ∀ k ∈ env.kv.map Prod.fst, strPre q1.1 k = true → strPre q2.1 k = true → q1 = q2)
    (hc : (cleanupIncremental env cfg st fuel).1.complete = true) :
    ∀ pfx maxAge k v t, (pfx, maxAge) ∈ cleanPartitions cfg → strPre pfx k = true →
      List.lookup k env.kv = some v → effTimestamp v = some t →
      maxAge < cfg.now - t →
      List.lookup k (cleanupIncremental env cfg st fuel).2.kv = none := by
  intro pfx maxAge k v t hmem hpre hv ht hexp
  have hsep2 : ∀ k0 q1 q2, k0 ∈ env.kv.map Prod.fst → q1 ∈ cleanPartitions cfg →
      q2 ∈ cleanPartitions cfg → strPre q1.1 k0 = true → strPre q2.1 k0 = true →
      q1 = q2 :=
    fun k0 q1 q2 hk0 hq1 hq2 => hsep q1 hq1 q2 hq2 k0 hk0
  have hrun : cleanupParts cfg none (cleanPartitions cfg) env fuel 0 =
      ((cleanupIncremental env cfg st fuel).1, (cleanupIncremental env cfg st fuel).2) := by
    simp only [cleanupIncremental, hcur]
  exact cleanupParts_none_correct cfg (cleanPartitions cfg) env fuel 0
    (cleanupIncremental env cfg st fuel).1 (cleanupIncremental env cfg st fuel).2
    hrun hc hsep2 pfx maxAge k v t hmem hpre hv ht hexp

/-- Witness for C3: on a store holding one expired rate-limit record, a fresh
full cleanup deletes it. -/
theorem claim_C3_witness :
    List.lookup ("r:1") (cleanupIncremental envW3 cfgM stFresh 50).2.kv = none :=
  claim_C3 cfgM envW3 stFresh 50 (by decide) (by decide) (by decide)
    ("r:") 86400000 ("r:1") (Val.tsRec (some 1) none) 1
    (by decide) (by decide) (by decide) (by decide) (by decide)
